import Mathlib

/-!
Verification development for the visibility-culling and multi-draw batching
core of the renderable module (createRenderable.cull, getMdbData and the
render submission path).

Scalars that are IEEE floats in the source are modelled as exact integers
(the algorithm only adds, multiplies and compares them, so any linearly
ordered carrier preserves its branching); the
Int32Array and Uint32Array buffers are modelled as Array Int with out-of-range
writes dropped (matching typed-array semantics) and out-of-range reads
returning 0.
-/

namespace Molstar

/-- Read an element of an Int buffer; out-of-range reads default to 0. -/
def aGet (a : Array Int) (i : Nat) : Int :=
  if h : i < a.size then a.get ⟨i, h⟩ else 0

/-- Write an element of an Int buffer; out-of-range writes are dropped,
matching JS typed-array semantics. -/
def aSet (a : Array Int) (i : Nat) (v : Int) : Array Int :=
  if h : i < a.size then a.set ⟨i, h⟩ v else a

/-- Read an element of a packed float buffer; out-of-range reads default to 0. -/
def qGet (a : Array Int) (i : Nat) : Int :=
  if h : i < a.size then a.get ⟨i, h⟩ else 0

/-- Replace the element at one position of a list in place. -/
def listModify : List α → Nat → (α → α) → List α
  | [], _, _ => []
  | x :: xs, 0, f => f x :: xs
  | x :: xs, n+1, f => x :: listModify xs n f

/-- 3-component vector over the scalar carrier. -/
structure Vec3 where
  x : Int
  y : Int
  z : Int
deriving DecidableEq, Repr

/-- Bounding sphere: center and radius. -/
structure Sphere3D where
  center : Vec3
  radius : Int
deriving DecidableEq, Repr

/-- A plane given by its normal and constant term. -/
structure Plane3D where
  normal : Vec3
  constant : Int
deriving DecidableEq, Repr

/-- Modelled from the spec: planeDistanceToPoint(plane, point) -> signed float
(mol-math Plane3D.distanceToPoint is outside the excerpt). -/
def Plane3D.distanceToPoint (p : Plane3D) (v : Vec3) : Int :=
  p.normal.x * v.x + p.normal.y * v.y + p.normal.z * v.z + p.constant

/-- A frustum as its list of six planes. -/
structure Frustum3D where
  planes : List Plane3D
deriving DecidableEq, Repr

/-- Modelled from the spec: frustumIntersectsSphere — conservative test, a
sphere is visible iff it is not entirely outside any plane
(mol-math Frustum3D.intersectsSphere3D is outside the excerpt). -/
def Frustum3D.intersectsSphere3D (f : Frustum3D) (s : Sphere3D) : Bool :=
  f.planes.all fun p => decide (-s.radius ≤ Plane3D.distanceToPoint p s.center)

/-- Modelled from the spec: Sphere3D.fromArray reads a sphere from packed
storage, 4 floats per sphere (center x, y, z and radius). -/
def Sphere3D.fromArray (a : Array Int) (o : Nat) : Sphere3D :=
  { center := { x := qGet a o, y := qGet a (o+1), z := qGet a (o+2) }
    radius := qGet a (o+3) }

/-- InstanceGrid as read by cull: cellOffsets (cellCount + 1 entries), packed
cellSpheres and the number of cells. -/
structure InstanceGrid where
  cellOffsets : Array Int
  cellSpheres : Array Int
  cellCount : Nat
deriving DecidableEq, Repr

/-- One LOD level tuple
[minDistance, maxDistance, overlap, count, sizeFactor]. -/
structure LodLevel where
  minDistance : Int
  maxDistance : Int
  overlap : Int
  count : Int
  sizeFactor : Int
deriving DecidableEq, Repr

/-- Modelled from the spec: a ValueCell holding a Vec4, with the version
counter that ValueCell.update bumps on every update. -/
structure UniformCell where
  value : Int × Int × Int × Int
  version : Nat
deriving DecidableEq, Repr

/-- Modelled from the spec: ValueCell.update replaces the value and bumps the
version counter. -/
def updateCell (c : UniformCell) (v : Int × Int × Int × Int) : UniformCell :=
  { value := v, version := c.version + 1 }

/-- MultiDrawBaseData: parallel draw-argument buffers, the number of valid
entries and the per-batch uniform overrides. -/
structure MultiDrawBaseData where
  firsts : Array Int
  counts : Array Int
  offsets : Array Int
  instanceCounts : Array Int
  baseVertices : Array Int
  baseInstances : Array Int
  count : Nat
  uniforms : List (String × UniformCell)
deriving DecidableEq, Repr

/-- getMdbData: reuse the existing buffers when instanceCounts has capacity at
least cellCount, otherwise allocate fresh zeroed buffers of size cellCount. -/
def getMdbData (cellCount : Nat) (mdbData : Option MultiDrawBaseData) : MultiDrawBaseData :=
  match mdbData with
  | some m =>
    if cellCount ≤ m.instanceCounts.size then m else
      { firsts := Array.mkArray cellCount 0
        counts := Array.mkArray cellCount 0
        offsets := Array.mkArray cellCount 0
        instanceCounts := Array.mkArray cellCount 0
        baseVertices := Array.mkArray cellCount 0
        baseInstances := Array.mkArray cellCount 0
        count := 0
        uniforms := [] }
  | none =>
      { firsts := Array.mkArray cellCount 0
        counts := Array.mkArray cellCount 0
        offsets := Array.mkArray cellCount 0
        instanceCounts := Array.mkArray cellCount 0
        baseVertices := Array.mkArray cellCount 0
        baseInstances := Array.mkArray cellCount 0
        count := 0
        uniforms := [] }

/-- The slice of the renderable values read by cull: drawCount, instanceCount,
the optional instance grid, the overall uLod vector and the optional LOD
level table together with the version of its value cell. -/
structure RenderableValues where
  drawCount : Int
  instanceCount : Int
  instanceGrid : Option InstanceGrid
  uLod : Int × Int × Int × Int
  lodLevels : Option (List LodLevel)
  lodLevelsRefVersion : Int
deriving DecidableEq, Repr

/-- The mutable closure state of one renderable that cull reads and writes:
mdbData, mdbDataList, cullEnabled and lodLevelsVersion. -/
structure CullState where
  mdbData : MultiDrawBaseData
  mdbDataList : List MultiDrawBaseData
  cullEnabled : Bool
  lodLevelsVersion : Int
deriving DecidableEq, Repr

/-- Initial closure state of createRenderable:
mdbData = getMdbData(0), empty batch list, culling disabled, version -1. -/
def createCullState : CullState :=
  { mdbData := getMdbData 0 none
    mdbDataList := []
    cullEnabled := false
    lodLevelsVersion := -1 }

/-- The two distance continues of the cull loop: skip a cell when
d + radius < minDistance or d - radius > maxDistance. -/
def lodSkip (minD maxD d radius : Int) : Bool :=
  decide (d + radius < minD) || decide (d - radius > maxD)

/-- hasLod flag: minDistance or maxDistance of uLod is non-zero. -/
def hasLodOf (uLod : Int × Int × Int × Int) : Bool :=
  decide (uLod.1 ≠ 0) || decide (uLod.2.1 ≠ 0)

/-- The sphere of cell i, read from packed storage at offset i * 4. -/
def cellSphere (grid : InstanceGrid) (i : Nat) : Sphere3D :=
  Sphere3D.fromArray grid.cellSpheres (i * 4)

/-- Signed distance from the camera plane to the center of cell i. -/
def cellDist (cameraPlane : Plane3D) (grid : InstanceGrid) (i : Nat) : Int :=
  Plane3D.distanceToPoint cameraPlane (cellSphere grid i).center

/-- cellOffsets[i]. -/
def cellOff (grid : InstanceGrid) (i : Nat) : Int :=
  aGet grid.cellOffsets i

/-- The overall distance gate of the cull loop: pass unless hasLod is set and
lodSkip rejects the cell against the overall uLod range. -/
def overallPass (hasLod : Bool) (minD maxD : Int) (cameraPlane : Plane3D)
    (grid : InstanceGrid) (i : Nat) : Bool :=
  !(hasLod && lodSkip minD maxD (cellDist cameraPlane grid i) (cellSphere grid i).radius)

/-- The frustum gate of the cull loop. -/
def frustumPass (frustum : Frustum3D) (grid : InstanceGrid) (i : Nat) : Bool :=
  Frustum3D.intersectsSphere3D frustum (cellSphere grid i)

/-- Merge-or-append into a batch, exactly the push of the cull loop: when the
last entry ends at begin (and, when checkDc is set, its draw count equals dc)
extend it, otherwise write a new entry at position count. The local o of the
single-batch branch is represented by the count field, which that branch
writes back from o only after its loop. -/
def mdbPush (checkDc : Bool) (dc b c : Int) (m : MultiDrawBaseData) : MultiDrawBaseData :=
  let o := m.count
  if 0 < o ∧ aGet m.baseInstances (o-1) + aGet m.instanceCounts (o-1) = b
      ∧ (checkDc = true → aGet m.counts (o-1) = dc) then
    { m with instanceCounts := aSet m.instanceCounts (o-1) (aGet m.instanceCounts (o-1) + c) }
  else
    { m with counts := aSet m.counts o dc
             instanceCounts := aSet m.instanceCounts o c
             baseInstances := aSet m.baseInstances o b
             count := o + 1 }

/-- Per-band body of the multi-band cull loop: the two per-band distance
continues, then merge-or-append with the band draw count lodLevels[j][3]. -/
def bandPush (lvl : LodLevel) (d radius : Int) (b c : Int) (m : MultiDrawBaseData) : MultiDrawBaseData :=
  if lodSkip lvl.minDistance lvl.maxDistance d radius then m
  else mdbPush true lvl.count b c m

/-- One iteration of the single-batch cull loop over cell i. -/
def cullStepB (dc : Int) (hasLod : Bool) (minD maxD : Int) (cameraPlane : Plane3D)
    (frustum : Frustum3D) (grid : InstanceGrid) (m : MultiDrawBaseData) (i : Nat) :
    MultiDrawBaseData :=
  if !overallPass hasLod minD maxD cameraPlane grid i then m
  else if !frustumPass frustum grid i then m
  else
    let b := cellOff grid i
    let c := cellOff grid (i+1) - b
    if c = 0 then m
    else mdbPush false dc b c m

/-- The single-batch cull loop over all cells. -/
def cullLoopB (dc : Int) (hasLod : Bool) (minD maxD : Int) (cameraPlane : Plane3D)
    (frustum : Frustum3D) (grid : InstanceGrid) (m : MultiDrawBaseData) :
    MultiDrawBaseData :=
  (List.range grid.cellCount).foldl (cullStepB dc hasLod minD maxD cameraPlane frustum grid) m

/-- One iteration of the multi-band cull loop over cell i: overall distance
gate, frustum gate, zero-size skip, then the inner loop over every band. -/
def cullStepA (lodLevels : List LodLevel) (hasLod : Bool) (minD maxD : Int)
    (cameraPlane : Plane3D) (frustum : Frustum3D) (grid : InstanceGrid)
    (lst : List MultiDrawBaseData) (i : Nat) : List MultiDrawBaseData :=
  if !overallPass hasLod minD maxD cameraPlane grid i then lst
  else if !frustumPass frustum grid i then lst
  else
    let b := cellOff grid i
    let c := cellOff grid (i+1) - b
    if c = 0 then lst
    else
      let d := cellDist cameraPlane grid i
      let r := (cellSphere grid i).radius
      (List.range lodLevels.length).foldl
        (fun l2 j =>
          match lodLevels.get? j with
          | some lvl => listModify l2 j (bandPush lvl d r b c)
          | none => l2)
        lst

/-- The multi-band cull loop over all cells. -/
def cullLoopA (lodLevels : List LodLevel) (hasLod : Bool) (minD maxD : Int)
    (cameraPlane : Plane3D) (frustum : Frustum3D) (grid : InstanceGrid)
    (lst : List MultiDrawBaseData) : List MultiDrawBaseData :=
  (List.range grid.cellCount).foldl
    (cullStepA lodLevels hasLod minD maxD cameraPlane frustum grid) lst

/-- Rebuild of one band batch uniforms entry when the LOD table version
changed: ensure a single uLod uniform cell and update it to
(minDistance, maxDistance, overlap, sizeFactor) of the band. -/
def rebuildUniform (lvl : LodLevel) (m : MultiDrawBaseData) : MultiDrawBaseData :=
  let v := (lvl.minDistance, lvl.maxDistance, lvl.overlap, lvl.sizeFactor)
  match m.uniforms with
  | [(nm, c)] => { m with uniforms := [(nm, updateCell c v)] }
  | _ => { m with uniforms := [("uLod", updateCell { value := (0,0,0,0), version := 0 } v)] }

/-- The multi-band branch of cull: resize mdbDataList to the number of bands
reusing existing batches, reset each count, rebuild each band uniforms entry
when the LOD table version changed, then run the cell loop. -/
def cullBranchA (lodLevels : List LodLevel) (version : Int) (hasLod : Bool)
    (minD maxD : Int) (cameraPlane : Plane3D) (frustum : Frustum3D)
    (grid : InstanceGrid) (st : CullState) : CullState :=
  let list0 := (List.range lodLevels.length).map fun i =>
    let m := getMdbData grid.cellCount (st.mdbDataList.get? i)
    { m with count := 0 }
  let list1 :=
    if version ≠ st.lodLevelsVersion then List.zipWith rebuildUniform lodLevels list0
    else list0
  let newVersion := if version ≠ st.lodLevelsVersion then version else st.lodLevelsVersion
  let list2 := cullLoopA lodLevels hasLod minD maxD cameraPlane frustum grid list1
  { st with mdbDataList := list2, cullEnabled := true, lodLevelsVersion := newVersion }

/-- The single-batch branch of cull: get (or grow) mdbData, run the cell loop
writing entries from position 0, then publish mdbData as the only batch with
an empty uniforms list. -/
def cullBranchB (dc : Int) (hasLod : Bool) (minD maxD : Int) (cameraPlane : Plane3D)
    (frustum : Frustum3D) (grid : InstanceGrid) (st : CullState) : CullState :=
  let m0 := getMdbData grid.cellCount (some st.mdbData)
  let m1 := cullLoopB dc hasLod minD maxD cameraPlane frustum grid { m0 with count := 0 }
  let m2 := { m1 with uniforms := [] }
  { st with mdbData := m2, mdbDataList := [m2], cullEnabled := true }

/-- createRenderable.cull: disable culling, return early on zero drawCount,
zero instanceCount or a missing instance grid, otherwise run the multi-band
branch when the LOD table is present and non-empty, else the single-batch
branch, and enable culling. -/
def cull (values : RenderableValues) (cameraPlane : Plane3D) (frustum : Frustum3D)
    (st : CullState) : CullState :=
  if values.drawCount = 0 then { st with cullEnabled := false }
  else if values.instanceCount = 0 then { st with cullEnabled := false }
  else
    match values.instanceGrid with
    | none => { st with cullEnabled := false }
    | some grid =>
      let minDistance := values.uLod.1
      let maxDistance := values.uLod.2.1
      let hasLod := hasLodOf values.uLod
      match values.lodLevels with
      | some lodLevels =>
        if 0 < lodLevels.length then
          cullBranchA lodLevels values.lodLevelsRefVersion hasLod minDistance maxDistance
            cameraPlane frustum grid st
        else
          cullBranchB values.drawCount hasLod minDistance maxDistance cameraPlane frustum grid st
      | none =>
          cullBranchB values.drawCount hasLod minDistance maxDistance cameraPlane frustum grid st

/-- createRenderable.uncull: disable culling. -/
def uncullState (st : CullState) : CullState :=
  { st with cullEnabled := false }

/-- The multi-draw argument of renderItem.render inside createRenderable.render:
the batch list when culling is enabled, nothing (full unculled draw) otherwise. -/
def renderMdb (st : CullState) : Option (List MultiDrawBaseData) :=
  if st.cullEnabled then some st.mdbDataList else none

/-- One merged draw entry of a batch: draw count, instance count and base
instance, the three buffers the cull loop writes. -/
structure Entry where
  dc : Int
  icount : Int
  base : Int
deriving DecidableEq, Repr

/-- The valid entries [0, count) of a batch. -/
def mdbEntries (m : MultiDrawBaseData) : List Entry :=
  (List.range m.count).map fun k =>
    { dc := aGet m.counts k, icount := aGet m.instanceCounts k, base := aGet m.baseInstances k }

/-- Merge-or-append on a list of entries kept in reverse order (head = most
recent entry); mirrors mdbPush. -/
def pushEntry (checkDc : Bool) (dc b c : Int) : List Entry → List Entry
  | [] => [{ dc := dc, icount := c, base := b }]
  | e :: rest =>
    if e.base + e.icount = b ∧ (checkDc = true → e.dc = dc) then
      { dc := e.dc, icount := e.icount + c, base := e.base } :: rest
    else
      { dc := dc, icount := c, base := b } :: e :: rest

/-- One iteration of the abstract cull loop on entry lists: skip invisible
cells and zero-size ranges, otherwise merge-or-append the cell range. -/
def buildStep (checkDc : Bool) (dc : Int) (off : Nat → Int) (vis : Nat → Bool)
    (acc : List Entry) (i : Nat) : List Entry :=
  if vis i then
    if off (i+1) - off i = 0 then acc
    else pushEntry checkDc dc (off i) (off (i+1) - off i) acc
  else acc

/-- The abstract cull loop over cells 0..n, in reverse entry order. -/
def buildAcc (checkDc : Bool) (dc : Int) (off : Nat → Int) (vis : Nat → Bool) (n : Nat) :
    List Entry :=
  (List.range n).foldl (buildStep checkDc dc off vis) []

/-- The abstract batch contents produced by the cull loop, in entry order. -/
def buildEntries (checkDc : Bool) (dc : Int) (off : Nat → Int) (vis : Nat → Bool) (n : Nat) :
    List Entry :=
  (buildAcc checkDc dc off vis n).reverse

/-- An instance index is covered by one of the entries of a list. -/
def covered (L : List Entry) (x : Int) : Prop :=
  ∃ e ∈ L, e.base ≤ x ∧ x < e.base + e.icount

/-- Visibility of a cell in the single-batch branch: overall distance gate and
frustum gate. -/
def visB (hasLod : Bool) (minD maxD : Int) (cameraPlane : Plane3D) (frustum : Frustum3D)
    (grid : InstanceGrid) (i : Nat) : Bool :=
  overallPass hasLod minD maxD cameraPlane grid i && frustumPass frustum grid i

/-- Visibility of a cell for one band of the multi-band branch: overall
distance gate, frustum gate and the band distance test. -/
def visA (lvl : LodLevel) (hasLod : Bool) (minD maxD : Int) (cameraPlane : Plane3D)
    (frustum : Frustum3D) (grid : InstanceGrid) (i : Nat) : Bool :=
  overallPass hasLod minD maxD cameraPlane grid i && frustumPass frustum grid i
    && !lodSkip lvl.minDistance lvl.maxDistance (cellDist cameraPlane grid i)
          (cellSphere grid i).radius

/-- Partition invariant of the instance grid: offsets start at 0, end at the
total instance count and are non-decreasing. -/
def InstanceGrid.partitionOk (g : InstanceGrid) (total : Int) : Prop :=
  cellOff g 0 = 0 ∧ cellOff g g.cellCount = total ∧
    ∀ i < g.cellCount, cellOff g i ≤ cellOff g (i+1)

/-- The six parallel buffers of one batch are allocated together, so the three
buffers the cull loop writes have one common size. -/
def MultiDrawBaseData.sizesAligned (m : MultiDrawBaseData) : Prop :=
  m.counts.size = m.instanceCounts.size ∧ m.baseInstances.size = m.instanceCounts.size

/-- Well-formedness of the closure state: every batch has aligned buffers. -/
def CullStateWF (st : CullState) : Prop :=
  st.mdbData.sizesAligned ∧ ∀ m ∈ st.mdbDataList, m.sizesAligned

instance (m : MultiDrawBaseData) : Decidable m.sizesAligned := by
  unfold MultiDrawBaseData.sizesAligned
  infer_instance

instance (st : CullState) : Decidable (CullStateWF st) := by
  unfold CullStateWF
  infer_instance

instance (g : InstanceGrid) (total : Int) : Decidable (g.partitionOk total) := by
  unfold InstanceGrid.partitionOk
  infer_instance

/-- One iteration of the generic cell loop of cull on one batch, parameterized
by the cell visibility predicate. -/
def mdbStep (checkDc : Bool) (dc : Int) (off : Nat → Int) (vis : Nat → Bool)
    (m : MultiDrawBaseData) (i : Nat) : MultiDrawBaseData :=
  if vis i then
    if off (i+1) - off i = 0 then m
    else mdbPush checkDc dc (off i) (off (i+1) - off i) m
  else m

/-- The generic cell loop of cull on one batch; both the single-batch loop and
each band of the multi-band loop are instances of it. -/
def mdbLoop (checkDc : Bool) (dc : Int) (off : Nat → Int) (vis : Nat → Bool) (n : Nat)
    (m : MultiDrawBaseData) : MultiDrawBaseData :=
  (List.range n).foldl (mdbStep checkDc dc off vis) m

theorem aSet_size (a : Array Int) (i : Nat) (v : Int) : (aSet a i v).size = a.size := by
  unfold aSet
  split <;> simp

theorem aGet_aSet (a : Array Int) (i j : Nat) (v : Int) :
    aGet (aSet a i v) j = if i = j ∧ i < a.size then v else aGet a j := by
  unfold aGet aSet
  by_cases hi : i < a.size
  · rw [dif_pos hi]
    by_cases hj : j < a.size
    · have hj2 : j < (a.set ⟨i, hi⟩ v).size := by simpa using hj
      rw [dif_pos hj2]
      have := Array.get_set a ⟨i, hi⟩ j hj v
      simp only [Array.get_eq_getElem] at this ⊢
      rw [this]
      by_cases hij : i = j
      · simp [hij, hj]
      · rw [if_neg hij, if_neg (by tauto), dif_pos hj]
    · have hj2 : ¬ j < (a.set ⟨i, hi⟩ v).size := by simpa using hj
      rw [dif_neg hj2, dif_neg hj, if_neg (by rintro ⟨rfl, _⟩; exact hj hi)]
  · rw [dif_neg hi, if_neg (by tauto)]

theorem aGet_aSet_self {a : Array Int} {i : Nat} (v : Int) (h : i < a.size) :
    aGet (aSet a i v) i = v := by
  rw [aGet_aSet, if_pos ⟨rfl, h⟩]

theorem aGet_aSet_ne {a : Array Int} {i j : Nat} (v : Int) (h : i ≠ j) :
    aGet (aSet a i v) j = aGet a j := by
  rw [aGet_aSet, if_neg (by tauto)]

theorem listModify_length (l : List α) (i : Nat) (f : α → α) :
    (listModify l i f).length = l.length := by
  induction l generalizing i with
  | nil => rfl
  | cons x xs ih =>
    cases i with
    | zero => simp [listModify]
    | succ i => simp [listModify, ih]

theorem listModify_getElem? (l : List α) (i : Nat) (f : α → α) (j : Nat) :
    (listModify l i f)[j]? = if i = j then (l[j]?).map f else l[j]? := by
  induction l generalizing i j with
  | nil => simp [listModify]
  | cons x xs ih =>
    cases i with
    | zero =>
      cases j with
      | zero => simp [listModify]
      | succ j => simp [listModify]
    | succ i =>
      cases j with
      | zero => simp [listModify]
      | succ j => simpa [listModify, Nat.succ_eq_add_one] using ih i j

theorem mdbEntries_length (m : MultiDrawBaseData) : (mdbEntries m).length = m.count := by
  simp [mdbEntries]

theorem mdbEntries_getElem (m : MultiDrawBaseData) (k : Nat) (h : k < m.count) :
    (mdbEntries m)[k]? =
      some { dc := aGet m.counts k, icount := aGet m.instanceCounts k,
             base := aGet m.baseInstances k } := by
  unfold mdbEntries
  rw [List.getElem?_map, List.getElem?_range h]
  rfl

theorem mdbEntries_getElem_none (m : MultiDrawBaseData) (k : Nat) (h : m.count ≤ k) :
    (mdbEntries m)[k]? = none :=
  List.getElem?_eq_none (by simpa [mdbEntries_length m])

/-- Representation invariant between an imperative batch under construction and
the abstract accumulator (in reverse entry order): arrays keep the size of the
start state, valid entries coincide, and the fields the loop never writes are
untouched. -/
structure MdbRepr (m0 m : MultiDrawBaseData) (acc : List Entry) : Prop where
  szCounts : m.counts.size = m0.counts.size
  szIC : m.instanceCounts.size = m0.instanceCounts.size
  szBI : m.baseInstances.size = m0.baseInstances.size
  countEq : m.count = acc.length
  entriesEq : mdbEntries m = acc.reverse
  uniformsEq : m.uniforms = m0.uniforms
  firstsEq : m.firsts = m0.firsts
  offsetsEq : m.offsets = m0.offsets
  bvEq : m.baseVertices = m0.baseVertices

theorem mdbRepr_init {m : MultiDrawBaseData} (h : m.count = 0) : MdbRepr m m [] := by
  refine ⟨rfl, rfl, rfl, by simp [h], ?_, rfl, rfl, rfl, rfl⟩
  simp [mdbEntries, h]

theorem mdbPush_repr {m0 m : MultiDrawBaseData} {acc : List Entry}
    (R : MdbRepr m0 m acc)
    (hc : acc.length < m0.counts.size) (hic : acc.length < m0.instanceCounts.size)
    (hbi : acc.length < m0.baseInstances.size)
    (checkDc : Bool) (dc b c : Int) :
    MdbRepr m0 (mdbPush checkDc dc b c m) (pushEntry checkDc dc b c acc) := by
  cases acc with
  | nil =>
    have h0 : m.count = 0 := by simpa using R.countEq
    unfold mdbPush
    rw [if_neg (by rw [h0]; rintro ⟨h, -⟩; exact absurd h (by omega))]
    have hc2 : (0:Nat) < m.counts.size := by rw [R.szCounts]; simpa using hc
    have hic2 : (0:Nat) < m.instanceCounts.size := by rw [R.szIC]; simpa using hic
    have hbi2 : (0:Nat) < m.baseInstances.size := by rw [R.szBI]; simpa using hbi
    refine ⟨?_, ?_, ?_, ?_, ?_, R.uniformsEq, R.firstsEq, R.offsetsEq, R.bvEq⟩
    · simpa [aSet_size] using R.szCounts
    · simpa [aSet_size] using R.szIC
    · simpa [aSet_size] using R.szBI
    · simp [pushEntry, h0]
    · apply List.ext_getElem?
      intro k
      match k with
      | 0 =>
        rw [mdbEntries_getElem _ 0 (by simp [h0])]
        simp [pushEntry, h0, aGet_aSet_self _ hc2, aGet_aSet_self _ hic2,
          aGet_aSet_self _ hbi2]
      | k+1 =>
        rw [mdbEntries_getElem_none _ (k+1) (by simp [h0])]
        simp [pushEntry]
  | cons e rest =>
    -- the last valid entry of m is e
    have hk : rest.length < m.count := by rw [R.countEq]; simp
    have hme := mdbEntries_getElem m rest.length hk
    rw [R.entriesEq] at hme
    have hre : ((e :: rest).reverse)[rest.length]? = some e := by
      rw [List.reverse_cons, List.getElem?_append_right (by simp)]
      simp
    rw [hme] at hre
    have hdc : aGet m.counts rest.length = e.dc := by
      have := congrArg Entry.dc (Option.some.inj hre); simpa using this
    have hicv : aGet m.instanceCounts rest.length = e.icount := by
      have := congrArg Entry.icount (Option.some.inj hre); simpa using this
    have hbase : aGet m.baseInstances rest.length = e.base := by
      have := congrArg Entry.base (Option.some.inj hre); simpa using this
    have hcount : m.count = rest.length + 1 := by rw [R.countEq]; simp
    have hidx : m.count - 1 = rest.length := by omega
    have hszC : m.counts.size = m0.counts.size := R.szCounts
    have hszI : m.instanceCounts.size = m0.instanceCounts.size := R.szIC
    have hszB : m.baseInstances.size = m0.baseInstances.size := R.szBI
    have hlacc : (e :: rest).length = rest.length + 1 := by simp
    by_cases hmerge : e.base + e.icount = b ∧ (checkDc = true → e.dc = dc)
    · -- merge into the last entry
      have hpe : pushEntry checkDc dc b c (e :: rest) =
          { dc := e.dc, icount := e.icount + c, base := e.base } :: rest := by
        simp only [pushEntry]
        rw [if_pos hmerge]
      unfold mdbPush
      rw [if_pos (by
        refine ⟨by omega, ?_, ?_⟩
        · rw [hidx, hbase, hicv]; exact hmerge.1
        · intro hcd; rw [hidx, hdc]; exact hmerge.2 hcd)]
      rw [hpe]
      have hicsz : rest.length < m.instanceCounts.size := by
        rw [hszI]; omega
      refine ⟨R.szCounts, ?_, R.szBI, ?_, ?_, R.uniformsEq, R.firstsEq, R.offsetsEq, R.bvEq⟩
      · simpa [aSet_size] using R.szIC
      · simpa using R.countEq
      · apply List.ext_getElem?
        intro k
        rcases Nat.lt_trichotomy k rest.length with hlt | heqk | hgt
        · have hkc : k < m.count := by omega
          rw [mdbEntries_getElem _ k (by exact hkc)]
          have hold := mdbEntries_getElem m k hkc
          rw [R.entriesEq] at hold
          rw [List.reverse_cons, List.getElem?_append_left (by simpa using hlt)] at hold
          rw [List.reverse_cons, List.getElem?_append_left (by simpa using hlt)]
          dsimp only
          rw [aGet_aSet_ne _ (by omega : m.count - 1 ≠ k)]
          exact hold.symm
        · subst heqk
          rw [mdbEntries_getElem _ rest.length (by exact hk)]
          rw [List.reverse_cons, List.getElem?_append_right (by simp)]
          simp [hidx, hdc, hbase, aGet_aSet_self _ hicsz, hicv]
        · rw [mdbEntries_getElem_none _ k (by exact (by omega : m.count ≤ k))]
          symm
          rw [List.getElem?_eq_none]
          simp
          omega
    · -- append a fresh entry
      have hpe : pushEntry checkDc dc b c (e :: rest) =
          { dc := dc, icount := c, base := b } :: e :: rest := by
        simp only [pushEntry]
        rw [if_neg hmerge]
      unfold mdbPush
      rw [if_neg (by
        rintro ⟨-, h1, h2⟩
        rw [hidx, hbase, hicv] at h1
        rw [hidx, hdc] at h2
        exact hmerge ⟨h1, h2⟩)]
      rw [hpe]
      have hoc : m.count < m.counts.size := by rw [hszC]; omega
      have hoi : m.count < m.instanceCounts.size := by rw [hszI]; omega
      have hob : m.count < m.baseInstances.size := by rw [hszB]; omega
      refine ⟨?_, ?_, ?_, ?_, ?_, R.uniformsEq, R.firstsEq, R.offsetsEq, R.bvEq⟩
      · simpa [aSet_size] using R.szCounts
      · simpa [aSet_size] using R.szIC
      · simpa [aSet_size] using R.szBI
      · simp [hcount]
      · apply List.ext_getElem?
        intro k
        have hsplit : ({ dc := dc, icount := c, base := b } :: e :: rest).reverse
            = (e :: rest).reverse ++ [{ dc := dc, icount := c, base := b }] :=
          List.reverse_cons _ _
        rcases Nat.lt_trichotomy k m.count with hlt | heqk | hgt
        · rw [mdbEntries_getElem _ k (by exact (by omega : k < m.count + 1))]
          have hold := mdbEntries_getElem m k hlt
          rw [R.entriesEq] at hold
          have hkr : k < ((e :: rest).reverse).length := by
            simpa using hlt.trans_eq hcount
          rw [hsplit, List.getElem?_append_left hkr]
          dsimp only
          rw [aGet_aSet_ne _ (by omega : m.count ≠ k), aGet_aSet_ne _ (by omega : m.count ≠ k),
            aGet_aSet_ne _ (by omega : m.count ≠ k)]
          exact hold.symm
        · subst heqk
          rw [mdbEntries_getElem _ m.count (by exact (by omega : m.count < m.count + 1))]
          rw [hsplit, List.getElem?_append_right (by simp; omega)]
          have hpos : m.count - ((e :: rest).reverse).length = 0 := by simp; omega
          rw [hpos]
          simp [aGet_aSet_self _ hoc, aGet_aSet_self _ hoi, aGet_aSet_self _ hob]
        · rw [mdbEntries_getElem_none _ k (by exact (by omega : m.count + 1 ≤ k))]
          symm
          rw [List.getElem?_eq_none]
          simp
          omega

theorem pushEntry_length_le (checkDc : Bool) (dc b c : Int) (acc : List Entry) :
    (pushEntry checkDc dc b c acc).length ≤ acc.length + 1 := by
  cases acc with
  | nil => simp [pushEntry]
  | cons e rest =>
    simp only [pushEntry]
    split <;> simp

theorem foldl_fun_congr {α β : Type} {f g : α → β → α} (h : ∀ a b, f a b = g a b) :
    ∀ (l : List β) (a : α), l.foldl f a = l.foldl g a := by
  intro l
  induction l with
  | nil => intro a; rfl
  | cons x xs ih => intro a; rw [List.foldl_cons, List.foldl_cons, h, ih]

theorem buildAcc_succ (checkDc : Bool) (dc : Int) (off : Nat → Int) (vis : Nat → Bool) (n : Nat) :
    buildAcc checkDc dc off vis (n+1) =
      buildStep checkDc dc off vis (buildAcc checkDc dc off vis n) n := by
  unfold buildAcc
  rw [List.range_succ, List.foldl_append]
  rfl

theorem mdbLoop_succ (checkDc : Bool) (dc : Int) (off : Nat → Int) (vis : Nat → Bool)
    (n : Nat) (m : MultiDrawBaseData) :
    mdbLoop checkDc dc off vis (n+1) m =
      mdbStep checkDc dc off vis (mdbLoop checkDc dc off vis n m) n := by
  unfold mdbLoop
  rw [List.range_succ, List.foldl_append]
  rfl

/-- The generic loop run from a batch with count 0 builds exactly the abstract
entry accumulator, and writes at most one entry per cell. -/
theorem mdbLoop_repr (checkDc : Bool) (dc : Int) (off : Nat → Int) (vis : Nat → Bool)
    {mStart : MultiDrawBaseData} (h0 : mStart.count = 0) (cap : Nat)
    (hcapC : cap ≤ mStart.counts.size) (hcapI : cap ≤ mStart.instanceCounts.size)
    (hcapB : cap ≤ mStart.baseInstances.size) :
    ∀ n, n ≤ cap →
      MdbRepr mStart (mdbLoop checkDc dc off vis n mStart) (buildAcc checkDc dc off vis n) ∧
        (buildAcc checkDc dc off vis n).length ≤ n := by
  intro n
  induction n with
  | zero =>
    intro _
    exact ⟨mdbRepr_init h0, by simp [buildAcc]⟩
  | succ n ih =>
    intro hn
    obtain ⟨R, hlen⟩ := ih (by omega)
    rw [mdbLoop_succ, buildAcc_succ]
    unfold mdbStep buildStep
    by_cases hv : vis n = true
    · rw [if_pos hv, if_pos hv]
      by_cases hz : off (n+1) - off n = 0
      · rw [if_pos hz, if_pos hz]
        exact ⟨R, by omega⟩
      · rw [if_neg hz, if_neg hz]
        refine ⟨mdbPush_repr R (by omega) (by omega) (by omega) _ _ _ _, ?_⟩
        calc (pushEntry checkDc dc (off n) (off (n+1) - off n)
                (buildAcc checkDc dc off vis n)).length
            ≤ (buildAcc checkDc dc off vis n).length + 1 := pushEntry_length_le _ _ _ _ _
          _ ≤ n + 1 := by omega
    · rw [if_neg hv, if_neg hv]
      exact ⟨R, by omega⟩

theorem cullStepB_eq_mdbStep (dc : Int) (hasLod : Bool) (minD maxD : Int) (p : Plane3D)
    (f : Frustum3D) (g : InstanceGrid) (m : MultiDrawBaseData) (i : Nat) :
    cullStepB dc hasLod minD maxD p f g m i =
      mdbStep false dc (cellOff g) (visB hasLod minD maxD p f g) m i := by
  unfold cullStepB mdbStep visB
  cases ho : overallPass hasLod minD maxD p g i <;>
    cases hf : frustumPass f g i <;> simp

theorem cullLoopB_eq_mdbLoop (dc : Int) (hasLod : Bool) (minD maxD : Int) (p : Plane3D)
    (f : Frustum3D) (g : InstanceGrid) (m : MultiDrawBaseData) :
    cullLoopB dc hasLod minD maxD p f g m =
      mdbLoop false dc (cellOff g) (visB hasLod minD maxD p f g) g.cellCount m := by
  unfold cullLoopB mdbLoop
  exact foldl_fun_congr (fun m i => cullStepB_eq_mdbStep dc hasLod minD maxD p f g m i) _ m

/-- Per-band view of one iteration of the multi-band loop: the gates, the
zero-size skip and the band push for one fixed band. -/
def bandStep (lvl : LodLevel) (hasLod : Bool) (minD maxD : Int) (p : Plane3D)
    (f : Frustum3D) (g : InstanceGrid) (m : MultiDrawBaseData) (i : Nat) :
    MultiDrawBaseData :=
  if !overallPass hasLod minD maxD p g i then m
  else if !frustumPass f g i then m
  else
    let b := cellOff g i
    let c := cellOff g (i+1) - b
    if c = 0 then m
    else bandPush lvl (cellDist p g i) (cellSphere g i).radius b c m

theorem bandStep_eq_mdbStep (lvl : LodLevel) (hasLod : Bool) (minD maxD : Int) (p : Plane3D)
    (f : Frustum3D) (g : InstanceGrid) (m : MultiDrawBaseData) (i : Nat) :
    bandStep lvl hasLod minD maxD p f g m i =
      mdbStep true lvl.count (cellOff g) (visA lvl hasLod minD maxD p f g) m i := by
  unfold bandStep mdbStep visA bandPush
  cases ho : overallPass hasLod minD maxD p g i <;>
    cases hf : frustumPass f g i <;>
      cases hs : lodSkip lvl.minDistance lvl.maxDistance (cellDist p g i)
          (cellSphere g i).radius <;>
        by_cases hz : cellOff g (i+1) - cellOff g i = 0 <;> simp [hz]

theorem bandFold_getElem? (lodLevels : List LodLevel) (d r b c : Int) :
    ∀ (n : Nat) (lst : List MultiDrawBaseData) (j : Nat),
      ((List.range n).foldl
          (fun l2 k =>
            match lodLevels.get? k with
            | some lvl => listModify l2 k (bandPush lvl d r b c)
            | none => l2)
          lst)[j]? =
        if j < n then
          match lodLevels[j]? with
          | some lvl => (lst[j]?).map (bandPush lvl d r b c)
          | none => lst[j]?
        else lst[j]? := by
  intro n
  induction n with
  | zero => intro lst j; simp
  | succ n ih =>
    intro lst j
    rw [List.range_succ, List.foldl_append, List.foldl_cons, List.foldl_nil]
    rcases Nat.lt_trichotomy j n with hlt | heq | hgt
    · have hj : j < n + 1 := by omega
      rw [if_pos hj]
      cases hn : lodLevels.get? n with
      | none => rw [ih lst j, if_pos hlt]
      | some lvl =>
        rw [listModify_getElem?, if_neg (by omega), ih lst j, if_pos hlt]
    · subst heq
      rw [if_pos (by omega)]
      cases hn : lodLevels.get? j with
      | none =>
        rw [ih lst j, if_neg (by omega)]
        rw [List.get?_eq_getElem?] at hn
        rw [hn]
      | some lvl =>
        rw [listModify_getElem?, if_pos rfl, ih lst j, if_neg (by omega)]
        rw [List.get?_eq_getElem?] at hn
        rw [hn]
    · rw [if_neg (by omega)]
      cases hn : lodLevels.get? n with
      | none => rw [ih lst j, if_neg (by omega)]
      | some lvl =>
        rw [listModify_getElem?, if_neg (by omega), ih lst j, if_neg (by omega)]

theorem cullStepA_getElem? (lodLevels : List LodLevel) (hasLod : Bool) (minD maxD : Int)
    (p : Plane3D) (f : Frustum3D) (g : InstanceGrid) (lst : List MultiDrawBaseData)
    (i j : Nat) (lvl : LodLevel) (hj : lodLevels[j]? = some lvl) :
    (cullStepA lodLevels hasLod minD maxD p f g lst i)[j]? =
      (lst[j]?).map (fun m => bandStep lvl hasLod minD maxD p f g m i) := by
  unfold cullStepA
  dsimp only
  cases ho : overallPass hasLod minD maxD p g i with
  | false =>
    rw [if_pos (by rfl)]
    have hb : ∀ m, bandStep lvl hasLod minD maxD p f g m i = m := by
      intro m
      unfold bandStep
      rw [if_pos (by rw [ho]; rfl)]
    cases hl : lst[j]? <;> simp [hl, hb]
  | true =>
    cases hf2 : frustumPass f g i with
    | false =>
      rw [if_neg (by simp), if_pos (by rfl)]
      have hb : ∀ m, bandStep lvl hasLod minD maxD p f g m i = m := by
        intro m
        unfold bandStep
        rw [if_neg (by rw [ho]; simp), if_pos (by rw [hf2]; rfl)]
      cases hl : lst[j]? <;> simp [hl, hb]
    | true =>
      rw [if_neg (by simp), if_neg (by simp)]
      by_cases hz : cellOff g (i+1) - cellOff g i = 0
      · rw [if_pos hz]
        have hb : ∀ m, bandStep lvl hasLod minD maxD p f g m i = m := by
          intro m
          unfold bandStep
          dsimp only
          rw [if_neg (by rw [ho]; simp), if_neg (by rw [hf2]; simp), if_pos hz]
        cases hl : lst[j]? <;> simp [hl, hb]
      · rw [if_neg hz]
        have hjl : j < lodLevels.length := by
          by_contra hge
          rw [List.getElem?_eq_none (by omega)] at hj
          exact Option.noConfusion hj
        have hb : ∀ m, bandStep lvl hasLod minD maxD p f g m i =
            bandPush lvl (cellDist p g i) (cellSphere g i).radius (cellOff g i)
              (cellOff g (i+1) - cellOff g i) m := by
          intro m
          unfold bandStep
          dsimp only
          rw [if_neg (by rw [ho]; simp), if_neg (by rw [hf2]; simp), if_neg hz]
        rw [bandFold_getElem? lodLevels (cellDist p g i) (cellSphere g i).radius
          (cellOff g i) (cellOff g (i+1) - cellOff g i) lodLevels.length lst j,
          if_pos hjl, hj]
        cases hl : lst[j]? <;> simp [hl, hb]

theorem cullStepA_length (lodLevels : List LodLevel) (hasLod : Bool) (minD maxD : Int)
    (p : Plane3D) (f : Frustum3D) (g : InstanceGrid) (lst : List MultiDrawBaseData)
    (i : Nat) :
    (cullStepA lodLevels hasLod minD maxD p f g lst i).length = lst.length := by
  unfold cullStepA
  dsimp only
  split
  · rfl
  split
  · rfl
  split
  · rfl
  · generalize lodLevels.length = n
    induction n generalizing lst with
    | zero => rfl
    | succ n ih =>
      rw [List.range_succ, List.foldl_append, List.foldl_cons, List.foldl_nil]
      cases lodLevels.get? n with
      | none => exact ih lst
      | some lvl => rw [listModify_length, ih lst]

theorem cullLoopA_getElem? (lodLevels : List LodLevel) (hasLod : Bool) (minD maxD : Int)
    (p : Plane3D) (f : Frustum3D) (g : InstanceGrid) (j : Nat) (lvl : LodLevel)
    (hj : lodLevels[j]? = some lvl) :
    ∀ (n : Nat) (lst : List MultiDrawBaseData),
      ((List.range n).foldl (cullStepA lodLevels hasLod minD maxD p f g) lst)[j]? =
        (lst[j]?).map
          (fun m => (List.range n).foldl (bandStep lvl hasLod minD maxD p f g) m) := by
  intro n
  induction n with
  | zero => intro lst; cases hl : lst[j]? <;> simp [hl]
  | succ n ih =>
    intro lst
    simp only [List.range_succ, List.foldl_append, List.foldl_cons, List.foldl_nil]
    rw [cullStepA_getElem? lodLevels hasLod minD maxD p f g _ n j lvl hj, ih lst]
    cases hl : lst[j]? <;> simp [hl]

theorem cullLoopA_length (lodLevels : List LodLevel) (hasLod : Bool) (minD maxD : Int)
    (p : Plane3D) (f : Frustum3D) (g : InstanceGrid) (lst : List MultiDrawBaseData) :
    (cullLoopA lodLevels hasLod minD maxD p f g lst).length = lst.length := by
  unfold cullLoopA
  generalize g.cellCount = n
  induction n generalizing lst with
  | zero => rfl
  | succ n ih =>
    rw [List.range_succ, List.foldl_append, List.foldl_cons, List.foldl_nil,
      cullStepA_length, ih lst]

theorem bandLoop_eq_mdbLoop (lvl : LodLevel) (hasLod : Bool) (minD maxD : Int) (p : Plane3D)
    (f : Frustum3D) (g : InstanceGrid) (n : Nat) (m : MultiDrawBaseData) :
    (List.range n).foldl (bandStep lvl hasLod minD maxD p f g) m =
      mdbLoop true lvl.count (cellOff g) (visA lvl hasLod minD maxD p f g) n m := by
  unfold mdbLoop
  exact foldl_fun_congr (fun m i => bandStep_eq_mdbStep lvl hasLod minD maxD p f g m i) _ m

/-- An instance index lies in the range described by one entry. -/
def inRange (e : Entry) (x : Int) : Prop :=
  e.base ≤ x ∧ x < e.base + e.icount

/-- Invariant of the abstract accumulator after processing cells [0, i):
entries are strictly separated in reverse order, have positive instance counts
and the common draw count, end at or before off i, and cover exactly the
instances of the visible cells processed so far. -/
structure AccInv (off : Nat → Int) (vis : Nat → Bool) (dc : Int) (i : Nat)
    (acc : List Entry) : Prop where
  pairwise : List.Pairwise (fun x y => y.base + y.icount < x.base) acc
  pos : ∀ e ∈ acc, 0 < e.icount
  dcEq : ∀ e ∈ acc, e.dc = dc
  bound : ∀ e ∈ acc, e.base + e.icount ≤ off i
  cover : ∀ x : Int, (∃ e ∈ acc, inRange e x) ↔
      ∃ j, j < i ∧ vis j = true ∧ off j ≤ x ∧ x < off (j+1)

theorem accInv_zero (off : Nat → Int) (vis : Nat → Bool) (dc : Int) :
    AccInv off vis dc 0 [] := by
  refine ⟨List.Pairwise.nil, by simp, by simp, by simp, ?_⟩
  intro x
  constructor
  · rintro ⟨e, he, -⟩
    exact absurd he (by simp)
  · rintro ⟨j, hj, -⟩
    omega

theorem accInv_step {off : Nat → Int} {vis : Nat → Bool} {dc : Int} {i : Nat}
    {acc : List Entry} (checkDc : Bool)
    (mono : off i ≤ off (i+1)) (h : AccInv off vis dc i acc) :
    AccInv off vis dc (i+1) (buildStep checkDc dc off vis acc i) := by
  unfold buildStep
  by_cases hv : vis i = true
  · rw [if_pos hv]
    by_cases hz : off (i+1) - off i = 0
    · rw [if_pos hz]
      refine ⟨h.pairwise, h.pos, h.dcEq, ?_, ?_⟩
      · intro e he
        exact (h.bound e he).trans (by omega)
      · intro x
        rw [h.cover x]
        constructor
        · rintro ⟨j, hj, hvj, hx1, hx2⟩
          exact ⟨j, by omega, hvj, hx1, hx2⟩
        · rintro ⟨j, hj, hvj, hx1, hx2⟩
          rcases Nat.lt_or_ge j i with hji | hji
          · exact ⟨j, hji, hvj, hx1, hx2⟩
          · have hji2 : j = i := by omega
            subst hji2
            omega
    · rw [if_neg hz]
      have hcpos : 0 < off (i+1) - off i := by omega
      cases acc with
      | nil =>
        have hpe : pushEntry checkDc dc (off i) (off (i+1) - off i) [] =
            [{ dc := dc, icount := off (i+1) - off i, base := off i }] := rfl
        rw [hpe]
        refine ⟨List.pairwise_singleton _ _, by simpa using hcpos, by simp, ?_, ?_⟩
        · intro e he
          rw [List.mem_singleton] at he
          subst he
          simp only [inRange]
          omega
        · intro x
          have hold := (h.cover x).symm
          constructor
          · rintro ⟨e, he, hr1, hr2⟩
            rw [List.mem_singleton] at he
            subst he
            simp at hr1 hr2
            exact ⟨i, by omega, hv, hr1, by omega⟩
          · rintro ⟨j, hj, hvj, hx1, hx2⟩
            rcases Nat.lt_or_ge j i with hji | hji
            · exfalso
              rcases (h.cover x).mpr ⟨j, hji, hvj, hx1, hx2⟩ with ⟨e, he, -⟩
              exact absurd he (by simp)
            · have hji2 : j = i := by omega
              subst hji2
              refine ⟨_, List.mem_singleton_self _, ?_, ?_⟩
              · simpa using hx1
              · simp only
                omega
      | cons e rest =>
        have hhead : ∀ y ∈ rest, y.base + y.icount < e.base :=
          (List.pairwise_cons.mp h.pairwise).1
        have hrest : List.Pairwise (fun x y => y.base + y.icount < x.base) rest :=
          (List.pairwise_cons.mp h.pairwise).2
        have hepos : 0 < e.icount := h.pos e (by simp)
        have hedc : e.dc = dc := h.dcEq e (by simp)
        have hebound : e.base + e.icount ≤ off i := h.bound e (by simp)
        by_cases hmerge : e.base + e.icount = off i ∧ (checkDc = true → e.dc = dc)
        · have hpe : pushEntry checkDc dc (off i) (off (i+1) - off i) (e :: rest) =
              { dc := e.dc, icount := e.icount + (off (i+1) - off i), base := e.base }
                :: rest := by
            simp only [pushEntry]
            rw [if_pos hmerge]
          rw [hpe]
          refine ⟨?_, ?_, ?_, ?_, ?_⟩
          · rw [List.pairwise_cons]
            exact ⟨fun y hy => hhead y hy, hrest⟩
          · intro e2 he2
            rcases List.mem_cons.mp he2 with he2 | he2
            · subst he2
              simp
              omega
            · exact h.pos e2 (by simp [he2])
          · intro e2 he2
            rcases List.mem_cons.mp he2 with he2 | he2
            · subst he2
              simpa using hedc
            · exact h.dcEq e2 (by simp [he2])
          · intro e2 he2
            rcases List.mem_cons.mp he2 with he2 | he2
            · subst he2
              simp
              omega
            · exact (h.bound e2 (by simp [he2])).trans (by omega)
          · intro x
            have hm1 : e.base + e.icount = off i := hmerge.1
            constructor
            · rintro ⟨e2, he2, hr1, hr2⟩
              rcases List.mem_cons.mp he2 with he2 | he2
              · subst he2
                simp at hr1 hr2
                by_cases hxi : x < off i
                · have hin : ∃ e3 ∈ e :: rest, inRange e3 x :=
                    ⟨e, by simp, hr1, by omega⟩
                  rcases (h.cover x).mp hin with ⟨j, hj, hvj, hj1, hj2⟩
                  exact ⟨j, by omega, hvj, hj1, hj2⟩
                · exact ⟨i, by omega, hv, by omega, by omega⟩
              · have hin : ∃ e3 ∈ e :: rest, inRange e3 x :=
                  ⟨e2, by simp [he2], hr1, hr2⟩
                rcases (h.cover x).mp hin with ⟨j, hj, hvj, hj1, hj2⟩
                exact ⟨j, by omega, hvj, hj1, hj2⟩
            · rintro ⟨j, hj, hvj, hx1, hx2⟩
              rcases Nat.lt_or_ge j i with hji | hji
              · rcases (h.cover x).mpr ⟨j, hji, hvj, hx1, hx2⟩ with ⟨e2, he2, hr1, hr2⟩
                rcases List.mem_cons.mp he2 with he2 | he2
                · rw [he2] at hr1 hr2
                  refine ⟨_, List.mem_cons_self _ _, ?_, ?_⟩
                  · show e.base ≤ x
                    exact hr1
                  · show x < e.base + (e.icount + (off (i+1) - off i))
                    omega
                · exact ⟨e2, by simp [he2], hr1, hr2⟩
              · have hji2 : j = i := by omega
                rw [hji2] at hx1 hx2
                refine ⟨_, List.mem_cons_self _ _, ?_, ?_⟩
                · show e.base ≤ x
                  omega
                · show x < e.base + (e.icount + (off (i+1) - off i))
                  omega
        · have hpe : pushEntry checkDc dc (off i) (off (i+1) - off i) (e :: rest) =
              { dc := dc, icount := off (i+1) - off i, base := off i } :: e :: rest := by
            simp only [pushEntry]
            rw [if_neg hmerge]
          rw [hpe]
          have hne : e.base + e.icount ≠ off i := by
            intro heq
            exact hmerge ⟨heq, fun _ => hedc⟩
          have hlt : e.base + e.icount < off i := by omega
          refine ⟨?_, ?_, ?_, ?_, ?_⟩
          · rw [List.pairwise_cons]
            refine ⟨?_, h.pairwise⟩
            intro y hy
            rcases List.mem_cons.mp hy with hy | hy
            · subst hy
              simpa using hlt
            · have := hhead y hy
              simp
              omega
          · intro e2 he2
            rcases List.mem_cons.mp he2 with he2 | he2
            · subst he2
              simpa using hcpos
            · exact h.pos e2 he2
          · intro e2 he2
            rcases List.mem_cons.mp he2 with he2 | he2
            · subst he2
              rfl
            · exact h.dcEq e2 he2
          · intro e2 he2
            rcases List.mem_cons.mp he2 with he2 | he2
            · subst he2
              show off i + (off (i+1) - off i) ≤ off (i+1)
              omega
            · exact (h.bound e2 he2).trans (by omega)
          · intro x
            constructor
            · rintro ⟨e2, he2, hr1, hr2⟩
              rcases List.mem_cons.mp he2 with he2 | he2
              · subst he2
                simp at hr1 hr2
                exact ⟨i, by omega, hv, hr1, by omega⟩
              · rcases (h.cover x).mp ⟨e2, he2, hr1, hr2⟩ with ⟨j, hj, hvj, hj1, hj2⟩
                exact ⟨j, by omega, hvj, hj1, hj2⟩
            · rintro ⟨j, hj, hvj, hx1, hx2⟩
              rcases Nat.lt_or_ge j i with hji | hji
              · rcases (h.cover x).mpr ⟨j, hji, hvj, hx1, hx2⟩ with ⟨e2, he2, hr1, hr2⟩
                exact ⟨e2, by simp [List.mem_cons.mp he2], hr1, hr2⟩
              · have hji2 : j = i := by omega
                rw [hji2] at hx1 hx2
                refine ⟨_, List.mem_cons_self _ _, ?_, ?_⟩
                · show off i ≤ x
                  exact hx1
                · show x < off i + (off (i+1) - off i)
                  omega
  · rw [if_neg hv]
    refine ⟨h.pairwise, h.pos, h.dcEq, ?_, ?_⟩
    · intro e he
      exact (h.bound e he).trans (by omega)
    · intro x
      rw [h.cover x]
      constructor
      · rintro ⟨j, hj, hvj, hx1, hx2⟩
        exact ⟨j, by omega, hvj, hx1, hx2⟩
      · rintro ⟨j, hj, hvj, hx1, hx2⟩
        rcases Nat.lt_or_ge j i with hji | hji
        · exact ⟨j, hji, hvj, hx1, hx2⟩
        · have hji2 : j = i := by omega
          subst hji2
          rw [hvj] at hv
          exact absurd rfl hv

theorem buildAcc_inv (checkDc : Bool) (dc : Int) (off : Nat → Int) (vis : Nat → Bool) :
    ∀ n : Nat, (∀ k, k < n → off k ≤ off (k+1)) →
      AccInv off vis dc n (buildAcc checkDc dc off vis n) := by
  intro n
  induction n with
  | zero =>
    intro _
    exact accInv_zero off vis dc
  | succ n ih =>
    intro mono
    rw [buildAcc_succ]
    exact accInv_step checkDc (mono n (by omega))
      (ih (fun k hk => mono k (by omega)))

theorem off_mono {off : Nat → Int} {n : Nat} (mono : ∀ k, k < n → off k ≤ off (k+1)) :
    ∀ j, j ≤ n → ∀ i, i ≤ j → off i ≤ off j := by
  intro j
  induction j with
  | zero =>
    intro _ i hi
    have hi0 : i = 0 := by omega
    subst hi0
    exact le_refl _
  | succ j ih =>
    intro hjn i hij
    rcases Nat.lt_or_ge i (j+1) with hlt | hge
    · exact (ih (by omega) i (by omega)).trans (mono j (by omega))
    · have hieq : i = j + 1 := by omega
      subst hieq
      exact le_refl _

theorem exists_cell_between (off : Nat → Int) (x : Int) :
    ∀ (k a b : Nat), b - a ≤ k → a ≤ b → off a ≤ x → x < off (b+1) →
      ∃ i, a ≤ i ∧ i ≤ b ∧ off i ≤ x ∧ x < off (i+1) := by
  intro k
  induction k with
  | zero =>
    intro a b hba hab h1 h2
    have hev : a = b := by omega
    subst hev
    exact ⟨a, le_refl _, le_refl _, h1, h2⟩
  | succ k ih =>
    intro a b hba hab h1 h2
    by_cases hx : x < off (a+1)
    · exact ⟨a, le_refl _, hab, h1, hx⟩
    · push_neg at hx
      have hab2 : a < b := by
        rcases Nat.eq_or_lt_of_le hab with heq | hlt
        · subst heq
          omega
        · exact hlt
      rcases ih (a+1) b (by omega) (by omega) hx h2 with ⟨i, hi1, hi2, hi3, hi4⟩
      exact ⟨i, by omega, hi2, hi3, hi4⟩

/-- The bundled properties of the abstract batch contents: strict separation
in entry order, positive counts with the common draw count and the off n
bound, and exact coverage of the visible cells. -/
theorem buildEntries_props (checkDc : Bool) (dc : Int) (off : Nat → Int) (vis : Nat → Bool)
    (n : Nat) (mono : ∀ k, k < n → off k ≤ off (k+1)) :
    List.Pairwise (fun x y => x.base + x.icount < y.base)
        (buildEntries checkDc dc off vis n) ∧
      (∀ e ∈ buildEntries checkDc dc off vis n,
        0 < e.icount ∧ e.dc = dc ∧ e.base + e.icount ≤ off n) ∧
      (∀ x : Int, (∃ e ∈ buildEntries checkDc dc off vis n, inRange e x) ↔
        ∃ j, j < n ∧ vis j = true ∧ off j ≤ x ∧ x < off (j+1)) := by
  have h := buildAcc_inv checkDc dc off vis n mono
  refine ⟨?_, ?_, ?_⟩
  · rw [buildEntries, List.pairwise_reverse]
    exact h.pairwise
  · intro e he
    rw [buildEntries, List.mem_reverse] at he
    exact ⟨h.pos e he, h.dcEq e he, h.bound e he⟩
  · intro x
    constructor
    · rintro ⟨e, he, hr⟩
      rw [buildEntries, List.mem_reverse] at he
      exact (h.cover x).mp ⟨e, he, hr⟩
    · intro hj
      rcases (h.cover x).mpr hj with ⟨e, he, hr⟩
      exact ⟨e, by rw [buildEntries, List.mem_reverse]; exact he, hr⟩

theorem entries_gap_unique_lt {L : List Entry}
    (hpair : List.Pairwise (fun x y => x.base + x.icount < y.base) L)
    (hpos : ∀ e ∈ L, 0 < e.icount)
    {u v : Int}
    (hcov : ∀ x : Int, u ≤ x → x < v → ∃ e ∈ L, inRange e x)
    {k1 k2 : Nat} (hk1 : k1 < L.length) (hk2 : k2 < L.length) (hlt : k1 < k2)
    {x y : Int}
    (hx1 : u ≤ x) (hx3 : inRange (L.get ⟨k1, hk1⟩) x)
    (hy2 : y < v) (hy3 : inRange (L.get ⟨k2, hk2⟩) y) :
    False := by
  have hpg := List.pairwise_iff_get.mp hpair
  have hsep12 := hpg ⟨k1, hk1⟩ ⟨k2, hk2⟩ hlt
  have hpos2 : 0 < (L.get ⟨k2, hk2⟩).icount := hpos _ (L.get_mem _ _)
  -- the gap point just before entry k2 is uncovered yet lies in [u, v)
  set g : Int := (L.get ⟨k2, hk2⟩).base - 1 with hg
  obtain ⟨hx3a, hx3b⟩ := hx3
  obtain ⟨hy3a, hy3b⟩ := hy3
  have hgu : u ≤ g := by omega
  have hgv : g < v := by omega
  rcases hcov g hgu hgv with ⟨e, he, hr1, hr2⟩
  rcases List.mem_iff_get.mp he with ⟨⟨k3, hk3⟩, hgk3⟩
  subst hgk3
  rcases Nat.lt_trichotomy k3 k2 with h3 | h3 | h3
  · have hsep := hpg ⟨k3, hk3⟩ ⟨k2, hk2⟩ h3
    omega
  · have hek : (⟨k3, hk3⟩ : Fin L.length) = ⟨k2, hk2⟩ := by
      apply Fin.ext
      exact h3
    rw [hek] at hr1 hr2
    omega
  · have hsep := hpg ⟨k2, hk2⟩ ⟨k3, hk3⟩ h3
    omega

theorem entries_gap_unique {L : List Entry}
    (hpair : List.Pairwise (fun x y => x.base + x.icount < y.base) L)
    (hpos : ∀ e ∈ L, 0 < e.icount)
    {u v : Int}
    (hcov : ∀ x : Int, u ≤ x → x < v → ∃ e ∈ L, inRange e x)
    {k1 k2 : Nat} (hk1 : k1 < L.length) (hk2 : k2 < L.length)
    {x y : Int}
    (hx1 : u ≤ x) (hx2 : x < v) (hx3 : inRange (L.get ⟨k1, hk1⟩) x)
    (hy1 : u ≤ y) (hy2 : y < v) (hy3 : inRange (L.get ⟨k2, hk2⟩) y) :
    k1 = k2 := by
  rcases Nat.lt_trichotomy k1 k2 with h | h | h
  · exact absurd (entries_gap_unique_lt hpair hpos hcov hk1 hk2 h hx1 hx3 hy2 hy3) id
  · exact h
  · exact absurd (entries_gap_unique_lt hpair hpos hcov hk2 hk1 h hy1 hy3 hx2 hx3) id

/-- A non-empty, fully covered, contiguous instance interval lies inside a
single entry, and no other entry meets it. -/
theorem covered_interval_entry {L : List Entry}
    (hpair : List.Pairwise (fun x y => x.base + x.icount < y.base) L)
    (hpos : ∀ e ∈ L, 0 < e.icount)
    {u v : Int} (huv : u < v)
    (hcov : ∀ x : Int, u ≤ x → x < v → ∃ e ∈ L, inRange e x) :
    ∃ (k : Nat) (hk : k < L.length),
      (L.get ⟨k, hk⟩).base ≤ u ∧ v ≤ (L.get ⟨k, hk⟩).base + (L.get ⟨k, hk⟩).icount ∧
      ∀ (k2 : Nat) (hk2 : k2 < L.length),
        (∃ y : Int, u ≤ y ∧ y < v ∧ inRange (L.get ⟨k2, hk2⟩) y) → k2 = k := by
  rcases hcov u (le_refl u) huv with ⟨e, he, hr⟩
  rcases List.mem_iff_get.mp he with ⟨⟨k, hk⟩, hgk⟩
  subst hgk
  have huniq : ∀ (k2 : Nat) (hk2 : k2 < L.length),
      (∃ y : Int, u ≤ y ∧ y < v ∧ inRange (L.get ⟨k2, hk2⟩) y) → k2 = k := by
    rintro k2 hk2 ⟨y, hy1, hy2, hy3⟩
    exact entries_gap_unique hpair hpos hcov hk2 hk
      hy1 hy2 hy3 (le_refl u) huv hr
  refine ⟨k, hk, hr.1, ?_, huniq⟩
  rcases hcov (v - 1) (by omega) (by omega) with ⟨e2, he2, hr2⟩
  rcases List.mem_iff_get.mp he2 with ⟨⟨k2, hk2⟩, hgk2⟩
  subst hgk2
  have hk2k : k2 = k := huniq k2 hk2 ⟨v - 1, by omega, by omega, hr2⟩
  subst hk2k
  obtain ⟨-, hend⟩ := hr2
  omega

/-- Run lemma on the abstract batch contents: a maximal visible run whose
boundary cells (when present) are invisible with non-empty ranges, and whose
combined range is non-empty, is described by exactly one merged entry. -/
theorem buildEntries_run (checkDc : Bool) (dc : Int) (off : Nat → Int) (vis : Nat → Bool)
    (n : Nat) (mono : ∀ k, k < n → off k ≤ off (k+1)) (a b : Nat)
    (hab : a ≤ b) (hbn : b < n)
    (hvis : ∀ i, a ≤ i → i ≤ b → vis i = true)
    (hleft : a = 0 ∨ (vis (a-1) = false ∧ off (a-1) < off a))
    (hright : b + 1 = n ∨ (vis (b+1) = false ∧ off (b+1) < off (b+2)))
    (hne : off a < off (b+1)) :
    ∃ (k : Nat) (hk : k < (buildEntries checkDc dc off vis n).length),
      ((buildEntries checkDc dc off vis n).get ⟨k, hk⟩).base = off a ∧
      ((buildEntries checkDc dc off vis n).get ⟨k, hk⟩).base
          + ((buildEntries checkDc dc off vis n).get ⟨k, hk⟩).icount = off (b+1) ∧
      ∀ (k2 : Nat) (hk2 : k2 < (buildEntries checkDc dc off vis n).length),
        (∃ y : Int, off a ≤ y ∧ y < off (b+1) ∧
          inRange ((buildEntries checkDc dc off vis n).get ⟨k2, hk2⟩) y) → k2 = k := by
  obtain ⟨hpair, hmem, hcover⟩ := buildEntries_props checkDc dc off vis n mono
  have hpos : ∀ e ∈ buildEntries checkDc dc off vis n, 0 < e.icount :=
    fun e he => (hmem e he).1
  have hcov : ∀ x : Int, off a ≤ x → x < off (b+1) →
      ∃ e ∈ buildEntries checkDc dc off vis n, inRange e x := by
    intro x h1 h2
    rcases exists_cell_between off x (b - a) a b (le_refl _) hab h1 h2 with
      ⟨i, hi1, hi2, hi3, hi4⟩
    exact (hcover x).mpr ⟨i, by omega, hvis i hi1 hi2, hi3, hi4⟩
  rcases covered_interval_entry hpair hpos hne hcov with ⟨k, hk, hbase, hend, huniq⟩
  refine ⟨k, hk, ?_, ?_, huniq⟩
  · -- the entry cannot start before off a
    by_contra hblt
    have hblt2 : ((buildEntries checkDc dc off vis n).get ⟨k, hk⟩).base < off a := by
      omega
    have hcovm : ∃ e ∈ buildEntries checkDc dc off vis n, inRange e (off a - 1) := by
      refine ⟨_, List.get_mem _ k hk, ?_, ?_⟩
      · omega
      · have hpk := hpos _ (List.get_mem _ k hk)
        omega
    rcases (hcover (off a - 1)).mp hcovm with ⟨j, hjn, hvj, hj1, hj2⟩
    rcases hleft with h0 | ⟨hvl, hol⟩
    · subst h0
      have : off 0 ≤ off j := off_mono mono j (by omega) 0 (by omega)
      omega
    · rcases Nat.lt_trichotomy j (a-1) with hja | hja | hja
      · have : off (j+1) ≤ off (a-1) := off_mono mono (a-1) (by omega) (j+1) (by omega)
        omega
      · rw [hja] at hvj
        rw [hvj] at hvl
        exact Bool.noConfusion hvl
      · have : off a ≤ off j := off_mono mono j (by omega) a (by omega)
        omega
  · -- the entry cannot extend past off (b+1)
    by_contra hegt
    have hegt2 : off (b+1) <
        ((buildEntries checkDc dc off vis n).get ⟨k, hk⟩).base
          + ((buildEntries checkDc dc off vis n).get ⟨k, hk⟩).icount := by
      omega
    have hcovv : ∃ e ∈ buildEntries checkDc dc off vis n, inRange e (off (b+1)) := by
      refine ⟨_, List.get_mem _ k hk, ?_, ?_⟩
      · omega
      · omega
    rcases (hcover (off (b+1))).mp hcovv with ⟨j, hjn, hvj, hj1, hj2⟩
    rcases hright with hn | ⟨hvr, hor⟩
    · subst hn
      have : off (j+1) ≤ off (b+1) := off_mono mono (b+1) (by omega) (j+1) (by omega)
      omega
    · rcases Nat.lt_trichotomy j (b+1) with hjb | hjb | hjb
      · have : off (j+1) ≤ off (b+1) := off_mono mono (b+1) (by omega) (j+1) (by omega)
        omega
      · rw [hjb] at hvj
        rw [hvj] at hvr
        exact Bool.noConfusion hvr
      · have : off (b+2) ≤ off j := off_mono mono j (by omega) (b+2) (by omega)
        omega

theorem getMdbData_reuse (cc : Nat) (m : MultiDrawBaseData)
    (h : cc ≤ m.instanceCounts.size) : getMdbData cc (some m) = m := by
  unfold getMdbData
  dsimp only
  rw [if_pos h]

theorem getMdbData_some_spec (cc : Nat) (m : MultiDrawBaseData) (h : m.sizesAligned) :
    (getMdbData cc (some m)).sizesAligned ∧
      cc ≤ (getMdbData cc (some m)).instanceCounts.size ∧
      m.instanceCounts.size ≤ (getMdbData cc (some m)).instanceCounts.size := by
  unfold getMdbData
  dsimp only
  by_cases hle : cc ≤ m.instanceCounts.size
  · rw [if_pos hle]
    exact ⟨h, hle, le_refl _⟩
  · rw [if_neg hle]
    refine ⟨⟨by simp, by simp⟩, by simp, by simp; omega⟩

theorem getMdbData_spec (cc : Nat) (om : Option MultiDrawBaseData)
    (h : ∀ m ∈ om, m.sizesAligned) :
    (getMdbData cc om).sizesAligned ∧ cc ≤ (getMdbData cc om).instanceCounts.size := by
  cases om with
  | none =>
    unfold getMdbData
    dsimp only
    exact ⟨⟨by simp, by simp⟩, by simp⟩
  | some m =>
    have := getMdbData_some_spec cc m (h m (by simp))
    exact ⟨this.1, this.2.1⟩

theorem getMdbData_count_zero (cc : Nat) (om : Option MultiDrawBaseData) :
    ({ getMdbData cc om with count := 0 } : MultiDrawBaseData).count = 0 := rfl

/-- Characterization of the single-batch branch: the one produced batch holds
exactly the abstract entries for the single-batch visibility predicate, with
empty uniforms, a count bounded by the cell count, and capacity at least the
cell count and at least the previous capacity. -/
theorem cullBranchB_spec (dc : Int) (hasLod : Bool) (minD maxD : Int) (p : Plane3D)
    (f : Frustum3D) (g : InstanceGrid) (st : CullState) (hwf : st.mdbData.sizesAligned) :
    ∃ m2 : MultiDrawBaseData,
      cullBranchB dc hasLod minD maxD p f g st =
        { st with mdbData := m2, mdbDataList := [m2], cullEnabled := true } ∧
      mdbEntries m2 =
        buildEntries false dc (cellOff g) (visB hasLod minD maxD p f g) g.cellCount ∧
      m2.count ≤ g.cellCount ∧
      m2.uniforms = [] ∧
      m2.sizesAligned ∧
      g.cellCount ≤ m2.instanceCounts.size ∧
      st.mdbData.instanceCounts.size ≤ m2.instanceCounts.size := by
  obtain ⟨hal, hcap, hmono⟩ := getMdbData_some_spec g.cellCount st.mdbData hwf
  set m0 : MultiDrawBaseData := getMdbData g.cellCount (some st.mdbData) with hm0
  set mS : MultiDrawBaseData := { m0 with count := 0 } with hmS
  have hS0 : mS.count = 0 := rfl
  have hSsz : mS.instanceCounts.size = m0.instanceCounts.size := rfl
  have hScsz : mS.counts.size = m0.counts.size := rfl
  have hSbsz : mS.baseInstances.size = m0.baseInstances.size := rfl
  obtain ⟨R, hlen⟩ := mdbLoop_repr false dc (cellOff g)
    (visB hasLod minD maxD p f g) hS0 g.cellCount
    (by rw [hScsz, hal.1]; exact hcap) (by rw [hSsz]; exact hcap)
    (by rw [hSbsz, hal.2]; exact hcap) g.cellCount (le_refl _)
  set m1 : MultiDrawBaseData := mdbLoop false dc (cellOff g)
    (visB hasLod minD maxD p f g) g.cellCount mS with hm1
  refine ⟨{ m1 with uniforms := [] }, ?_, ?_, ?_, rfl, ?_, ?_, ?_⟩
  · unfold cullBranchB
    dsimp only
    rw [cullLoopB_eq_mdbLoop]
  · have : mdbEntries { m1 with uniforms := [] } = mdbEntries m1 := rfl
    rw [this, R.entriesEq]
    rfl
  · have : ({ m1 with uniforms := [] } : MultiDrawBaseData).count = m1.count := rfl
    rw [this, R.countEq]
    exact hlen
  · exact ⟨by rw [show ({ m1 with uniforms := [] } : MultiDrawBaseData).counts = m1.counts
        from rfl, show ({ m1 with uniforms := [] } : MultiDrawBaseData).instanceCounts
        = m1.instanceCounts from rfl, R.szCounts, R.szIC, hScsz, hSsz, hal.1],
      by rw [show ({ m1 with uniforms := [] } : MultiDrawBaseData).baseInstances
        = m1.baseInstances from rfl, show ({ m1 with uniforms := [] } :
        MultiDrawBaseData).instanceCounts = m1.instanceCounts from rfl,
        R.szBI, R.szIC, hSbsz, hSsz, hal.2]⟩
  · rw [show ({ m1 with uniforms := [] } : MultiDrawBaseData).instanceCounts
      = m1.instanceCounts from rfl, R.szIC, hSsz]
    exact hcap
  · rw [show ({ m1 with uniforms := [] } : MultiDrawBaseData).instanceCounts
      = m1.instanceCounts from rfl, R.szIC, hSsz]
    exact hmono

theorem cull_early (values : RenderableValues) (p : Plane3D) (f : Frustum3D)
    (st : CullState)
    (h : values.drawCount = 0 ∨ values.instanceCount = 0 ∨ values.instanceGrid = none) :
    cull values p f st = { st with cullEnabled := false } := by
  unfold cull
  by_cases hd : values.drawCount = 0
  · rw [if_pos hd]
  · rw [if_neg hd]
    by_cases hi : values.instanceCount = 0
    · rw [if_pos hi]
    · rw [if_neg hi]
      have hg : values.instanceGrid = none := by tauto
      rw [hg]

theorem cull_eq_branchB (values : RenderableValues) (p : Plane3D) (f : Frustum3D)
    (st : CullState) (grid : InstanceGrid)
    (hd : values.drawCount ≠ 0) (hi : values.instanceCount ≠ 0)
    (hg : values.instanceGrid = some grid)
    (hll : values.lodLevels = none ∨ values.lodLevels = some []) :
    cull values p f st =
      cullBranchB values.drawCount (hasLodOf values.uLod) values.uLod.1 values.uLod.2.1
        p f grid st := by
  unfold cull
  rw [if_neg hd, if_neg hi, hg]
  rcases hll with h | h <;> rw [h]
  rfl

theorem cull_eq_branchA (values : RenderableValues) (p : Plane3D) (f : Frustum3D)
    (st : CullState) (grid : InstanceGrid) (ll : List LodLevel)
    (hd : values.drawCount ≠ 0) (hi : values.instanceCount ≠ 0)
    (hg : values.instanceGrid = some grid)
    (hll : values.lodLevels = some ll) (hlen : 0 < ll.length) :
    cull values p f st =
      cullBranchA ll values.lodLevelsRefVersion (hasLodOf values.uLod) values.uLod.1
        values.uLod.2.1 p f grid st := by
  unfold cull
  rw [if_neg hd, if_neg hi, hg, hll]
  dsimp only
  rw [if_pos hlen]

theorem rebuildUniform_projs (lvl : LodLevel) (m : MultiDrawBaseData) :
    (rebuildUniform lvl m).counts = m.counts ∧
      (rebuildUniform lvl m).instanceCounts = m.instanceCounts ∧
      (rebuildUniform lvl m).baseInstances = m.baseInstances ∧
      (rebuildUniform lvl m).count = m.count := by
  unfold rebuildUniform
  dsimp only
  split <;> exact ⟨rfl, rfl, rfl, rfl⟩

/-- Start state of band j in the multi-band branch: reuse-or-grow the previous
batch at that position, reset its count, and rebuild its uniforms entry when
the LOD table version changed. -/
def branchABatchStart (version stVersion : Int) (cc : Nat)
    (prev : Option MultiDrawBaseData) (lvl : LodLevel) : MultiDrawBaseData :=
  let m0 : MultiDrawBaseData := { getMdbData cc prev with count := 0 }
  if version ≠ stVersion then rebuildUniform lvl m0 else m0

theorem branchABatchStart_props (version stVersion : Int) (cc : Nat)
    (prev : Option MultiDrawBaseData) (lvl : LodLevel)
    (h : ∀ m ∈ prev, m.sizesAligned) :
    (branchABatchStart version stVersion cc prev lvl).count = 0 ∧
      (branchABatchStart version stVersion cc prev lvl).sizesAligned ∧
      cc ≤ (branchABatchStart version stVersion cc prev lvl).instanceCounts.size := by
  obtain ⟨hal, hcap⟩ := getMdbData_spec cc prev h
  unfold branchABatchStart
  dsimp only
  by_cases hv : version ≠ stVersion
  · rw [if_pos hv]
    obtain ⟨hc, hic, hbi, hcnt⟩ := rebuildUniform_projs lvl
      { getMdbData cc prev with count := 0 }
    refine ⟨by rw [hcnt], ⟨?_, ?_⟩, ?_⟩
    · rw [hc, hic]
      exact hal.1
    · rw [hbi, hic]
      exact hal.2
    · rw [hic]
      exact hcap
  · rw [if_neg hv]
    exact ⟨rfl, ⟨hal.1, hal.2⟩, hcap⟩

/-- Characterization of the multi-band branch: mdbData untouched, culling
enabled, version recorded, one batch per band, and the batch of each band
holds exactly the abstract entries for that band with the uniforms of its
start state (rebuilt only on a version change). -/
theorem cullBranchA_spec (lodLevels : List LodLevel) (version : Int) (hasLod : Bool)
    (minD maxD : Int) (p : Plane3D) (f : Frustum3D) (g : InstanceGrid) (st : CullState)
    (hwf : ∀ m ∈ st.mdbDataList, m.sizesAligned) :
    (cullBranchA lodLevels version hasLod minD maxD p f g st).mdbData = st.mdbData ∧
      (cullBranchA lodLevels version hasLod minD maxD p f g st).cullEnabled = true ∧
      (cullBranchA lodLevels version hasLod minD maxD p f g st).lodLevelsVersion = version ∧
      (cullBranchA lodLevels version hasLod minD maxD p f g st).mdbDataList.length
        = lodLevels.length ∧
      ∀ (j : Nat) (lvl : LodLevel), lodLevels[j]? = some lvl →
        ∃ mj : MultiDrawBaseData,
          (cullBranchA lodLevels version hasLod minD maxD p f g st).mdbDataList[j]?
            = some mj ∧
          mdbEntries mj = buildEntries true lvl.count (cellOff g)
            (visA lvl hasLod minD maxD p f g) g.cellCount ∧
          mj.count ≤ g.cellCount ∧
          mj.sizesAligned ∧
          g.cellCount ≤ mj.instanceCounts.size ∧
          mj.uniforms = (branchABatchStart version st.lodLevelsVersion g.cellCount
            (st.mdbDataList.get? j) lvl).uniforms := by
  set list0 : List MultiDrawBaseData := (List.range lodLevels.length).map (fun i =>
    { getMdbData g.cellCount (st.mdbDataList.get? i) with count := 0 }) with hlist0
  set list1 : List MultiDrawBaseData :=
    if version ≠ st.lodLevelsVersion then List.zipWith rebuildUniform lodLevels list0
    else list0 with hlist1
  have hunfold : cullBranchA lodLevels version hasLod minD maxD p f g st =
      { st with
          mdbDataList := cullLoopA lodLevels hasLod minD maxD p f g list1,
          cullEnabled := true,
          lodLevelsVersion :=
            if version ≠ st.lodLevelsVersion then version else st.lodLevelsVersion } := by
    unfold cullBranchA
    rfl
  have hlen0 : list0.length = lodLevels.length := by
    rw [hlist0]
    simp
  have hlen1 : list1.length = lodLevels.length := by
    rw [hlist1]
    by_cases hv : version ≠ st.lodLevelsVersion
    · rw [if_pos hv, List.length_zipWith, hlen0]
      omega
    · rw [if_neg hv]
      exact hlen0
  have hstart : ∀ (j : Nat) (lvl : LodLevel), lodLevels[j]? = some lvl →
      list1[j]? = some (branchABatchStart version st.lodLevelsVersion g.cellCount
        (st.mdbDataList.get? j) lvl) := by
    intro j lvl hj
    have hjl : j < lodLevels.length := by
      by_contra hge
      rw [List.getElem?_eq_none (by omega)] at hj
      exact Option.noConfusion hj
    have h0 : list0[j]? =
        some { getMdbData g.cellCount (st.mdbDataList.get? j) with count := 0 } := by
      rw [hlist0, List.getElem?_map, List.getElem?_range hjl]
      rfl
    rw [hlist1]
    unfold branchABatchStart
    dsimp only
    by_cases hv : version ≠ st.lodLevelsVersion
    · rw [if_pos hv, if_pos hv, List.getElem?_zipWith', hj, h0]
      rfl
    · rw [if_neg hv, if_neg hv]
      exact h0
  rw [hunfold]
  refine ⟨rfl, rfl, ?_, ?_, ?_⟩
  · dsimp only
    by_cases hv : version ≠ st.lodLevelsVersion
    · rw [if_pos hv]
    · rw [if_neg hv]
      push_neg at hv
      exact hv.symm
  · dsimp only
    rw [cullLoopA_length, hlen1]
  · intro j lvl hj
    have hstart_j := hstart j lvl hj
    obtain ⟨hs_count, hs_aligned, hs_cap⟩ := branchABatchStart_props version
      st.lodLevelsVersion g.cellCount (st.mdbDataList.get? j) lvl (by
        intro m hm
        cases hopt : st.mdbDataList.get? j with
        | none =>
          rw [hopt] at hm
          exact absurd hm (by simp)
        | some m2 =>
          rw [hopt] at hm
          rw [Option.mem_some_iff] at hm
          subst hm
          exact hwf m2 (List.get?_mem hopt))
    obtain ⟨R, hlenb⟩ := mdbLoop_repr true lvl.count (cellOff g)
      (visA lvl hasLod minD maxD p f g) hs_count g.cellCount
      (by rw [hs_aligned.1]; exact hs_cap) hs_cap
      (by rw [hs_aligned.2]; exact hs_cap) g.cellCount (le_refl _)
    refine ⟨mdbLoop true lvl.count (cellOff g) (visA lvl hasLod minD maxD p f g)
      g.cellCount (branchABatchStart version st.lodLevelsVersion g.cellCount
        (st.mdbDataList.get? j) lvl), ?_, ?_, ?_, ?_, ?_, ?_⟩
    · show (cullLoopA lodLevels hasLod minD maxD p f g list1)[j]? = _
      unfold cullLoopA
      rw [cullLoopA_getElem? lodLevels hasLod minD maxD p f g j lvl hj g.cellCount list1,
        hstart_j, Option.map_some', bandLoop_eq_mdbLoop]
    · rw [R.entriesEq]
      rfl
    · rw [R.countEq]
      exact hlenb
    · exact ⟨by rw [R.szCounts, R.szIC, hs_aligned.1], by rw [R.szBI, R.szIC, hs_aligned.2]⟩
    · rw [R.szIC]
      exact hs_cap
    · exact R.uniformsEq

theorem getMdbData_capacity_monotone (cc : Nat) (m : MultiDrawBaseData) :
    cc ≤ (getMdbData cc (some m)).instanceCounts.size ∧
      m.instanceCounts.size ≤ (getMdbData cc (some m)).instanceCounts.size := by
  unfold getMdbData
  dsimp only
  by_cases hle : cc ≤ m.instanceCounts.size
  · rw [if_pos hle]
    exact ⟨hle, le_refl _⟩
  · rw [if_neg hle]
    refine ⟨by simp, by simp; omega⟩

/-- Observable content of one batch: its valid entries and its uniforms. -/
def batchObs (m : MultiDrawBaseData) : List Entry × List (String × UniformCell) :=
  (mdbEntries m, m.uniforms)

/-- The visibility predicate the cull loop applies for batch j of its output:
band j of the LOD table in multi-band mode, the single-batch tests otherwise. -/
def batchVis (values : RenderableValues) (p : Plane3D) (f : Frustum3D)
    (grid : InstanceGrid) (j : Nat) : Nat → Bool :=
  match values.lodLevels with
  | some ll =>
    if 0 < ll.length then
      match ll[j]? with
      | some lvl => visA lvl (hasLodOf values.uLod) values.uLod.1 values.uLod.2.1 p f grid
      | none => fun _ => false
    else visB (hasLodOf values.uLod) values.uLod.1 values.uLod.2.1 p f grid
  | none => visB (hasLodOf values.uLod) values.uLod.1 values.uLod.2.1 p f grid

theorem visB_frustum {hasLod : Bool} {minD maxD : Int} {p : Plane3D} {f : Frustum3D}
    {g : InstanceGrid} {i : Nat} (h : visB hasLod minD maxD p f g i = true) :
    frustumPass f g i = true := by
  unfold visB at h
  exact (Bool.and_eq_true _ _ |>.mp h).2

theorem visA_frustum {lvl : LodLevel} {hasLod : Bool} {minD maxD : Int} {p : Plane3D}
    {f : Frustum3D} {g : InstanceGrid} {i : Nat}
    (h : visA lvl hasLod minD maxD p f g i = true) :
    frustumPass f g i = true := by
  unfold visA at h
  exact ((Bool.and_eq_true _ _ |>.mp (Bool.and_eq_true _ _ |>.mp h).1).2)

theorem batchVis_frustum (values : RenderableValues) (p : Plane3D) (f : Frustum3D)
    (grid : InstanceGrid) (j i : Nat)
    (h : batchVis values p f grid j i = true) : frustumPass f grid i = true := by
  unfold batchVis at h
  cases hll : values.lodLevels with
  | none =>
    rw [hll] at h
    dsimp only at h
    exact visB_frustum h
  | some ll =>
    rw [hll] at h
    dsimp only at h
    by_cases hlen : 0 < ll.length
    · rw [if_pos hlen] at h
      cases hj : ll[j]? with
      | none =>
        rw [hj] at h
        exact Bool.noConfusion h
      | some lvl =>
        rw [hj] at h
        exact visA_frustum h
    · rw [if_neg hlen] at h
      exact visB_frustum h

/-- Central per-batch characterization: each batch the completed cull call
leaves in mdbDataList holds exactly the abstract merged entries for that
batch's visibility predicate. -/
theorem cull_batch_entries (values : RenderableValues) (p : Plane3D) (f : Frustum3D)
    (st : CullState) (grid : InstanceGrid)
    (hd : values.drawCount ≠ 0) (hi : values.instanceCount ≠ 0)
    (hg : values.instanceGrid = some grid) (hwf : CullStateWF st)
    (j : Nat) (hj : j < (cull values p f st).mdbDataList.length) :
    ∃ (bj : MultiDrawBaseData) (checkDc : Bool) (dc : Int),
      (cull values p f st).mdbDataList[j]? = some bj ∧
      mdbEntries bj =
        buildEntries checkDc dc (cellOff grid) (batchVis values p f grid j)
          grid.cellCount ∧
      bj.count ≤ grid.cellCount ∧
      grid.cellCount ≤ bj.instanceCounts.size := by
  cases hll : values.lodLevels with
  | none =>
    rw [cull_eq_branchB values p f st grid hd hi hg (Or.inl hll)] at hj ⊢
    obtain ⟨m2, heq, hent, hcnt, -, -, hcap, -⟩ :=
      cullBranchB_spec values.drawCount (hasLodOf values.uLod) values.uLod.1
        values.uLod.2.1 p f grid st hwf.1
    rw [heq] at hj ⊢
    have hj0 : j = 0 := by
      simp at hj
      omega
    subst hj0
    refine ⟨m2, false, values.drawCount, rfl, ?_, hcnt, hcap⟩
    rw [hent]
    unfold batchVis
    rw [hll]
  | some ll =>
    by_cases hlen : 0 < ll.length
    · rw [cull_eq_branchA values p f st grid ll hd hi hg hll hlen] at hj ⊢
      obtain ⟨-, -, -, hlist, hper⟩ :=
        cullBranchA_spec ll values.lodLevelsRefVersion (hasLodOf values.uLod)
          values.uLod.1 values.uLod.2.1 p f grid st hwf.2
      rw [hlist] at hj
      have hjlvl : ∃ lvl, ll[j]? = some lvl := by
        cases h2 : ll[j]? with
        | none =>
          rw [List.getElem?_eq_none_iff] at h2
          omega
        | some lvl => exact ⟨lvl, rfl⟩
      obtain ⟨lvl, hlvl⟩ := hjlvl
      obtain ⟨mj, hmj, hent, hcnt, -, hcap, -⟩ := hper j lvl hlvl
      refine ⟨mj, true, lvl.count, hmj, ?_, hcnt, hcap⟩
      rw [hent]
      unfold batchVis
      rw [hll]
      dsimp only
      rw [if_pos hlen, hlvl]
    · have hll0 : ll = [] := by
        cases ll with
        | nil => rfl
        | cons x xs => exact absurd (by simp) hlen
      subst hll0
      rw [cull_eq_branchB values p f st grid hd hi hg (Or.inr hll)] at hj ⊢
      obtain ⟨m2, heq, hent, hcnt, -, -, hcap, -⟩ :=
        cullBranchB_spec values.drawCount (hasLodOf values.uLod) values.uLod.1
          values.uLod.2.1 p f grid st hwf.1
      rw [heq] at hj ⊢
      have hj0 : j = 0 := by
        simp at hj
        omega
      subst hj0
      refine ⟨m2, false, values.drawCount, rfl, ?_, hcnt, hcap⟩
      rw [hent]
      unfold batchVis
      rw [hll]
      dsimp only
      rw [if_neg hlen]

/-- A completed or early-returned cull preserves the buffer-alignment
well-formedness of the closure state. -/
theorem cull_preserves_wf (values : RenderableValues) (p : Plane3D) (f : Frustum3D)
    (st : CullState) (hwf : CullStateWF st) : CullStateWF (cull values p f st) := by
  by_cases hd : values.drawCount = 0
  · rw [cull_early values p f st (Or.inl hd)]
    exact hwf
  by_cases hi : values.instanceCount = 0
  · rw [cull_early values p f st (Or.inr (Or.inl hi))]
    exact hwf
  cases hg : values.instanceGrid with
  | none =>
    rw [cull_early values p f st (Or.inr (Or.inr hg))]
    exact hwf
  | some grid =>
    have hbranchB : ∀ (h : values.lodLevels = none ∨ values.lodLevels = some []),
        CullStateWF (cull values p f st) := by
      intro h
      rw [cull_eq_branchB values p f st grid hd hi hg h]
      obtain ⟨m2, heq, -, -, -, hal, -, -⟩ :=
        cullBranchB_spec values.drawCount (hasLodOf values.uLod) values.uLod.1
          values.uLod.2.1 p f grid st hwf.1
      rw [heq]
      refine ⟨hal, ?_⟩
      intro m hm
      rw [List.mem_singleton] at hm
      subst hm
      exact hal
    cases hll : values.lodLevels with
    | none => exact hbranchB (Or.inl hll)
    | some ll =>
      by_cases hlen : 0 < ll.length
      · rw [cull_eq_branchA values p f st grid ll hd hi hg hll hlen]
        obtain ⟨hmd, -, -, hlist, hper⟩ :=
          cullBranchA_spec ll values.lodLevelsRefVersion (hasLodOf values.uLod)
            values.uLod.1 values.uLod.2.1 p f grid st hwf.2
        refine ⟨by rw [hmd]; exact hwf.1, ?_⟩
        intro m hm
        rcases List.mem_iff_get.mp hm with ⟨⟨j, hjl⟩, hget⟩
        have hjll : j < ll.length := by
          rw [hlist] at hjl
          exact hjl
        have hlvl : ∃ lvl, ll[j]? = some lvl := by
          cases h2 : ll[j]? with
          | none =>
            rw [List.getElem?_eq_none_iff] at h2
            omega
          | some lvl => exact ⟨lvl, rfl⟩
        obtain ⟨lvl, hlvl⟩ := hlvl
        obtain ⟨mj, hmj, -, -, halj, -, -⟩ := hper j lvl hlvl
        have hgetj : (cullBranchA ll values.lodLevelsRefVersion (hasLodOf values.uLod)
            values.uLod.1 values.uLod.2.1 p f grid st).mdbDataList[j]? = some m := by
          rw [← hget, List.get_eq_getElem]
          exact List.getElem?_eq_getElem hjl
        rw [hgetj] at hmj
        rw [Option.some.injEq] at hmj
        rw [hmj]
        exact halj
      · have hll0 : ll = [] := by
          cases ll with
          | nil => rfl
          | cons x xs => exact absurd (by simp) hlen
        subst hll0
        exact hbranchB (Or.inr hll)

theorem cell_of_point_unique {off : Nat → Int} {n : Nat}
    (mono : ∀ k, k < n → off k ≤ off (k+1)) {i j : Nat} (hi : i < n) (hj : j < n)
    {x : Int} (hxi1 : off i ≤ x) (hxi2 : x < off (i+1)) (hxj1 : off j ≤ x)
    (hxj2 : x < off (j+1)) : i = j := by
  rcases Nat.lt_trichotomy i j with h | h | h
  · have : off (i+1) ≤ off j := off_mono mono j (by omega) (i+1) (by omega)
    omega
  · exact h
  · have : off (j+1) ≤ off i := off_mono mono i (by omega) (j+1) (by omega)
    omega

/-- Retrieve the abstract characterization for a batch given by membership in
the output list. -/
theorem cull_batch_entries_of_mem (values : RenderableValues) (p : Plane3D)
    (f : Frustum3D) (st : CullState) (grid : InstanceGrid)
    (hd : values.drawCount ≠ 0) (hi : values.instanceCount ≠ 0)
    (hg : values.instanceGrid = some grid) (hwf : CullStateWF st)
    (b : MultiDrawBaseData) (hb : b ∈ (cull values p f st).mdbDataList) :
    ∃ (j : Nat) (checkDc : Bool) (dc : Int),
      mdbEntries b =
        buildEntries checkDc dc (cellOff grid) (batchVis values p f grid j)
          grid.cellCount ∧
      b.count ≤ grid.cellCount ∧
      grid.cellCount ≤ b.instanceCounts.size := by
  rcases List.mem_iff_get.mp hb with ⟨⟨j, hjl⟩, hget⟩
  obtain ⟨bj, checkDc, dc, hbj, hent, hcnt, hcap⟩ :=
    cull_batch_entries values p f st grid hd hi hg hwf j hjl
  have hbj2 : (cull values p f st).mdbDataList[j]? = some b := by
    rw [← hget, List.get_eq_getElem]
    exact List.getElem?_eq_getElem hjl
  rw [hbj2, Option.some.injEq] at hbj
  subst hbj
  exact ⟨j, checkDc, dc, hent, hcnt, hcap⟩

/-- Claim C5: when drawCount is 0, or instanceCount is 0, or no instance grid
is attached, cull returns with every part of the state except the cullEnabled
flag unchanged, culling stays disabled, and the following render submits the
full unculled draw (no multi-draw batches); the function is total, so no error
is raised. -/
theorem C5_cull_noop_without_preconditions (values : RenderableValues) (p : Plane3D)
    (f : Frustum3D) (st : CullState)
    (h : values.drawCount = 0 ∨ values.instanceCount = 0 ∨ values.instanceGrid = none) :
    cull values p f st = { st with cullEnabled := false } ∧
      renderMdb (cull values p f st) = none := by
  have he := cull_early values p f st h
  refine ⟨he, ?_⟩
  rw [he]
  rfl

/-- Claim C10: after a completed cull with an absent or empty LOD table, the
batch list holds exactly one batch and its uniforms sequence is empty, so
per-band uLod overrides from an earlier multi-band cull never survive into a
LOD-disabled frame. -/
theorem C10_lod_disabled_single_batch_empty_uniforms (values : RenderableValues)
    (p : Plane3D) (f : Frustum3D) (st : CullState) (grid : InstanceGrid)
    (hd : values.drawCount ≠ 0) (hi : values.instanceCount ≠ 0)
    (hg : values.instanceGrid = some grid)
    (hll : values.lodLevels = none ∨ values.lodLevels = some []) :
    ∃ b : MultiDrawBaseData,
      (cull values p f st).mdbDataList = [b] ∧ b.uniforms = [] := by
  rw [cull_eq_branchB values p f st grid hd hi hg hll]
  unfold cullBranchB
  dsimp only
  exact ⟨_, rfl, rfl⟩

/-- Claim C2: for every cell whose bounding sphere fails the sphere-frustum
test, no entry of any batch produced by the completed cull call covers any
instance index of that cell's range, assuming the grid partition invariant. -/
theorem C2_visibility_soundness (values : RenderableValues) (p : Plane3D) (f : Frustum3D)
    (st : CullState) (grid : InstanceGrid)
    (hd : values.drawCount ≠ 0) (hi : values.instanceCount ≠ 0)
    (hg : values.instanceGrid = some grid) (hwf : CullStateWF st)
    (hpart : grid.partitionOk values.instanceCount)
    (i : Nat) (hic : i < grid.cellCount) (hfr : frustumPass f grid i = false) :
    ∀ b ∈ (cull values p f st).mdbDataList, ∀ e ∈ mdbEntries b, ∀ x : Int,
      cellOff grid i ≤ x → x < cellOff grid (i+1) → ¬ inRange e x := by
  intro b hb e he x hx1 hx2 hr
  obtain ⟨j, checkDc, dc, hent, -, -⟩ :=
    cull_batch_entries_of_mem values p f st grid hd hi hg hwf b hb
  have hcov := (buildEntries_props checkDc dc (cellOff grid)
    (batchVis values p f grid j) grid.cellCount hpart.2.2).2.2 x
  rw [← hent] at hcov
  rcases hcov.mp ⟨e, he, hr⟩ with ⟨j2, hj2, hvj2, hxj1, hxj2⟩
  have hj2i : j2 = i := cell_of_point_unique hpart.2.2 hj2 hic hxj1 hxj2 hx1 hx2
  subst hj2i
  have := batchVis_frustum values p f grid j j2 hvj2
  rw [this] at hfr
  exact Bool.noConfusion hfr

/-- Claim C4: after a completed cull under the grid partition precondition,
every produced batch has pairwise disjoint entry ranges, strictly increasing
baseInstance values, and strictly positive instance counts. -/
theorem C4_batch_entry_invariants (values : RenderableValues) (p : Plane3D)
    (f : Frustum3D) (st : CullState) (grid : InstanceGrid)
    (hd : values.drawCount ≠ 0) (hi : values.instanceCount ≠ 0)
    (hg : values.instanceGrid = some grid) (hwf : CullStateWF st)
    (hpart : grid.partitionOk values.instanceCount) :
    ∀ b ∈ (cull values p f st).mdbDataList,
      List.Pairwise (fun e1 e2 => e1.base + e1.icount ≤ e2.base) (mdbEntries b) ∧
      List.Pairwise (fun e1 e2 => e1.base < e2.base) (mdbEntries b) ∧
      ∀ e ∈ mdbEntries b, 0 < e.icount := by
  intro b hb
  obtain ⟨j, checkDc, dc, hent, -, -⟩ :=
    cull_batch_entries_of_mem values p f st grid hd hi hg hwf b hb
  obtain ⟨hpair, hmemp, -⟩ := buildEntries_props checkDc dc (cellOff grid)
    (batchVis values p f grid j) grid.cellCount hpart.2.2
  rw [hent]
  refine ⟨hpair.imp (fun h => le_of_lt h), ?_, fun e he => (hmemp e he).1⟩
  rw [List.pairwise_iff_get]
  intro k1 k2 hk
  have hs := List.pairwise_iff_get.mp hpair k1 k2 hk
  have hp1 := (hmemp _ (List.get_mem _ k1.1 k1.2)).1
  simp only [Fin.eta] at hp1
  omega

/-- Claim C8: buffer reuse policy — getMdbData reuses a buffer exactly when
its capacity suffices and otherwise replaces it by a buffer of the requested
larger capacity (never smaller); across a completed cull the persistent
mdbData capacity never shrinks, and every produced batch has count at most
cellCount and capacity at least cellCount. -/
theorem C8_buffer_reuse (values : RenderableValues) (p : Plane3D) (f : Frustum3D)
    (st : CullState) (grid : InstanceGrid)
    (hd : values.drawCount ≠ 0) (hi : values.instanceCount ≠ 0)
    (hg : values.instanceGrid = some grid) (hwf : CullStateWF st) :
    (∀ (cc : Nat) (m : MultiDrawBaseData), cc ≤ m.instanceCounts.size →
        getMdbData cc (some m) = m) ∧
      (∀ (cc : Nat) (m : MultiDrawBaseData),
        cc ≤ (getMdbData cc (some m)).instanceCounts.size ∧
          m.instanceCounts.size ≤ (getMdbData cc (some m)).instanceCounts.size) ∧
      st.mdbData.instanceCounts.size ≤
        (cull values p f st).mdbData.instanceCounts.size ∧
      ∀ b ∈ (cull values p f st).mdbDataList,
        b.count ≤ grid.cellCount ∧ grid.cellCount ≤ b.instanceCounts.size := by
  refine ⟨getMdbData_reuse, getMdbData_capacity_monotone, ?_, ?_⟩
  · cases hll : values.lodLevels with
    | none =>
      rw [cull_eq_branchB values p f st grid hd hi hg (Or.inl hll)]
      obtain ⟨m2, heq, -, -, -, -, -, hmono⟩ :=
        cullBranchB_spec values.drawCount (hasLodOf values.uLod) values.uLod.1
          values.uLod.2.1 p f grid st hwf.1
      rw [heq]
      exact hmono
    | some ll =>
      by_cases hlen : 0 < ll.length
      · rw [cull_eq_branchA values p f st grid ll hd hi hg hll hlen]
        obtain ⟨hmd, -, -, -, -⟩ :=
          cullBranchA_spec ll values.lodLevelsRefVersion (hasLodOf values.uLod)
            values.uLod.1 values.uLod.2.1 p f grid st hwf.2
        rw [hmd]
      · have hll0 : ll = [] := by
          cases ll with
          | nil => rfl
          | cons x xs => exact absurd (by simp) hlen
        subst hll0
        rw [cull_eq_branchB values p f st grid hd hi hg (Or.inr hll)]
        obtain ⟨m2, heq, -, -, -, -, -, hmono⟩ :=
          cullBranchB_spec values.drawCount (hasLodOf values.uLod) values.uLod.1
            values.uLod.2.1 p f grid st hwf.1
        rw [heq]
        exact hmono
  · intro b hb
    obtain ⟨-, -, -, -, hcnt, hcap⟩ :=
      cull_batch_entries_of_mem values p f st grid hd hi hg hwf b hb
    exact ⟨hcnt, hcap⟩

/-- Claim C6 (amended): with an absent or empty LOD table and the overall uLod
min and max both zero, every cell is gated only by the frustum test: the
single output batch covers an instance index exactly when the index lies in
the range of a cell passing the frustum test. (As stated the claim fails:
with an empty table but non-zero uLod the overall distance interval still
applies; see the counterexample.) -/
theorem C6_empty_table_frustum_only (values : RenderableValues) (p : Plane3D)
    (f : Frustum3D) (st : CullState) (grid : InstanceGrid)
    (hd : values.drawCount ≠ 0) (hi : values.instanceCount ≠ 0)
    (hg : values.instanceGrid = some grid) (hwf : CullStateWF st)
    (hpart : grid.partitionOk values.instanceCount)
    (hll : values.lodLevels = none ∨ values.lodLevels = some [])
    (hu1 : values.uLod.1 = 0) (hu2 : values.uLod.2.1 = 0) :
    ∃ b : MultiDrawBaseData, (cull values p f st).mdbDataList = [b] ∧
      ∀ x : Int, (∃ e ∈ mdbEntries b, inRange e x) ↔
        ∃ i, i < grid.cellCount ∧ frustumPass f grid i = true ∧
          cellOff grid i ≤ x ∧ x < cellOff grid (i+1) := by
  rw [cull_eq_branchB values p f st grid hd hi hg hll]
  obtain ⟨m2, heq, hent, -, -, -, -, -⟩ :=
    cullBranchB_spec values.drawCount (hasLodOf values.uLod) values.uLod.1
      values.uLod.2.1 p f grid st hwf.1
  rw [heq]
  refine ⟨m2, rfl, ?_⟩
  intro x
  rw [hent]
  rw [(buildEntries_props false values.drawCount (cellOff grid)
    (visB (hasLodOf values.uLod) values.uLod.1 values.uLod.2.1 p f grid)
    grid.cellCount hpart.2.2).2.2 x]
  have hvis : ∀ i, visB (hasLodOf values.uLod) values.uLod.1 values.uLod.2.1 p f grid i
      = frustumPass f grid i := by
    intro i
    unfold visB overallPass hasLodOf
    rw [hu1, hu2]
    simp
  constructor
  · rintro ⟨i2, h1, h2, h3, h4⟩
    rw [hvis i2] at h2
    exact ⟨i2, h1, h2, h3, h4⟩
  · rintro ⟨i2, h1, h2, h3, h4⟩
    rw [← hvis i2] at h2
    exact ⟨i2, h1, h2, h3, h4⟩

/-- Claim C9: the LOD distance test is inclusive at both boundaries: lodSkip
never rejects a sphere exactly touching minDistance (d + radius = min) or
maxDistance (d - radius = max) while inside the other bound — this covers the
overall gate and the per-band gate, which both run lodSkip; moreover, in a
cull without LOD table, a frustum-passing cell with a non-empty range whose
sphere exactly touches an overall boundary gets its whole range covered by
the output batch. -/
theorem C9_inclusive_boundaries (values : RenderableValues) (p : Plane3D)
    (f : Frustum3D) (st : CullState) (grid : InstanceGrid)
    (hd : values.drawCount ≠ 0) (hi : values.instanceCount ≠ 0)
    (hg : values.instanceGrid = some grid) (hwf : CullStateWF st)
    (hpart : grid.partitionOk values.instanceCount)
    (hll : values.lodLevels = none ∨ values.lodLevels = some [])
    (i : Nat) (hic : i < grid.cellCount)
    (htouch : (cellDist p grid i + (cellSphere grid i).radius = values.uLod.1 ∧
        cellDist p grid i - (cellSphere grid i).radius ≤ values.uLod.2.1) ∨
      (cellDist p grid i - (cellSphere grid i).radius = values.uLod.2.1 ∧
        values.uLod.1 ≤ cellDist p grid i + (cellSphere grid i).radius))
    (hfr : frustumPass f grid i = true)
    (hnz : cellOff grid i < cellOff grid (i+1)) :
    (∀ minD maxD d r : Int,
      ((d + r = minD ∧ d - r ≤ maxD) ∨ (d - r = maxD ∧ minD ≤ d + r)) →
        lodSkip minD maxD d r = false) ∧
    ∃ b : MultiDrawBaseData, (cull values p f st).mdbDataList = [b] ∧
      ∀ x : Int, cellOff grid i ≤ x → x < cellOff grid (i+1) →
        ∃ e ∈ mdbEntries b, inRange e x := by
  have hskipGen : ∀ minD maxD d r : Int,
      ((d + r = minD ∧ d - r ≤ maxD) ∨ (d - r = maxD ∧ minD ≤ d + r)) →
        lodSkip minD maxD d r = false := by
    intro minD maxD d r h
    rcases h with ⟨h1, h2⟩ | ⟨h1, h2⟩ <;>
      · simp only [lodSkip, Bool.or_eq_false_iff, decide_eq_false_iff_not, not_lt]
        constructor <;> omega
  refine ⟨hskipGen, ?_⟩
  rw [cull_eq_branchB values p f st grid hd hi hg hll]
  obtain ⟨m2, heq, hent, -, -, -, -, -⟩ :=
    cullBranchB_spec values.drawCount (hasLodOf values.uLod) values.uLod.1
      values.uLod.2.1 p f grid st hwf.1
  rw [heq]
  refine ⟨m2, rfl, ?_⟩
  intro x hx1 hx2
  rw [hent]
  apply ((buildEntries_props false values.drawCount (cellOff grid)
    (visB (hasLodOf values.uLod) values.uLod.1 values.uLod.2.1 p f grid)
    grid.cellCount hpart.2.2).2.2 x).mpr
  refine ⟨i, hic, ?_, hx1, hx2⟩
  have hskip := hskipGen values.uLod.1 values.uLod.2.1 (cellDist p grid i)
    (cellSphere grid i).radius (by tauto)
  unfold visB overallPass
  rw [hskip, hfr]
  simp

/-- Claim C3 (amended): in multi-band mode, every cell that passes the frustum
test, has a non-empty range, and additionally passes the overall uLod gate is
tested against every band; for each band whose distance interval the cell
sphere meets, the cell's range is covered by exactly one merged entry of that
band's batch — so a cell may appear in several bands' batches when bands
overlap. (As stated the claim fails because the overall uLod gate runs before
the band tests; see the counterexample.) -/
theorem C3_band_coverage (values : RenderableValues) (p : Plane3D) (f : Frustum3D)
    (st : CullState) (grid : InstanceGrid) (ll : List LodLevel)
    (hd : values.drawCount ≠ 0) (hi : values.instanceCount ≠ 0)
    (hg : values.instanceGrid = some grid) (hwf : CullStateWF st)
    (hpart : grid.partitionOk values.instanceCount)
    (hll : values.lodLevels = some ll) (hlen : 0 < ll.length)
    (j : Nat) (lvl : LodLevel) (hj : ll[j]? = some lvl)
    (i : Nat) (hic : i < grid.cellCount)
    (hov : overallPass (hasLodOf values.uLod) values.uLod.1 values.uLod.2.1 p grid i
      = true)
    (hfr : frustumPass f grid i = true)
    (hband : lodSkip lvl.minDistance lvl.maxDistance (cellDist p grid i)
      ((cellSphere grid i).radius) = false)
    (hnz : cellOff grid i < cellOff grid (i+1)) :
    ∃ bj : MultiDrawBaseData, (cull values p f st).mdbDataList[j]? = some bj ∧
      ∃ (k : Nat) (hk : k < (mdbEntries bj).length),
        ((mdbEntries bj).get ⟨k, hk⟩).base ≤ cellOff grid i ∧
        cellOff grid (i+1) ≤
          ((mdbEntries bj).get ⟨k, hk⟩).base + ((mdbEntries bj).get ⟨k, hk⟩).icount ∧
        ∀ (k2 : Nat) (hk2 : k2 < (mdbEntries bj).length),
          (∃ y : Int, cellOff grid i ≤ y ∧ y < cellOff grid (i+1) ∧
            inRange ((mdbEntries bj).get ⟨k2, hk2⟩) y) → k2 = k := by
  rw [cull_eq_branchA values p f st grid ll hd hi hg hll hlen]
  obtain ⟨-, -, -, -, hper⟩ :=
    cullBranchA_spec ll values.lodLevelsRefVersion (hasLodOf values.uLod)
      values.uLod.1 values.uLod.2.1 p f grid st hwf.2
  obtain ⟨mj, hmj, hent, -, -, -, -⟩ := hper j lvl hj
  refine ⟨mj, hmj, ?_⟩
  rw [hent]
  have hvisA : visA lvl (hasLodOf values.uLod) values.uLod.1 values.uLod.2.1 p f grid i
      = true := by
    unfold visA
    rw [hov, hfr, hband]
    rfl
  obtain ⟨hpair, hmemp, hcover⟩ := buildEntries_props true lvl.count (cellOff grid)
    (visA lvl (hasLodOf values.uLod) values.uLod.1 values.uLod.2.1 p f grid)
    grid.cellCount hpart.2.2
  have hcov : ∀ x : Int, cellOff grid i ≤ x → x < cellOff grid (i+1) →
      ∃ e ∈ buildEntries true lvl.count (cellOff grid)
        (visA lvl (hasLodOf values.uLod) values.uLod.1 values.uLod.2.1 p f grid)
        grid.cellCount, inRange e x := by
    intro x h1 h2
    exact (hcover x).mpr ⟨i, hic, hvisA, h1, h2⟩
  rcases covered_interval_entry hpair (fun e he => (hmemp e he).1) hnz hcov with
    ⟨k, hk, hb1, hb2, huniq⟩
  exact ⟨k, hk, hb1, hb2, huniq⟩

/-- Claim C1 (amended): for a run of consecutively-indexed cells that all pass
the batch visibility tests, whose combined instance range is non-empty, and
whose boundary cells (when they exist) fail the visibility tests and have
non-empty ranges, a single cull call produces exactly one merged entry for
the run: its baseInstance is the first cell's range start, its instanceCount
the sum of the run's range sizes, and no other entry meets the run's range.
(As frozen the claim fails when a maximal run is separated from an earlier
visible run only by empty-range cells — the runs then merge into one entry;
see the counterexample.) -/
theorem C1_run_merge (values : RenderableValues) (p : Plane3D) (f : Frustum3D)
    (st : CullState) (grid : InstanceGrid)
    (hd : values.drawCount ≠ 0) (hi : values.instanceCount ≠ 0)
    (hg : values.instanceGrid = some grid) (hwf : CullStateWF st)
    (hpart : grid.partitionOk values.instanceCount)
    (j : Nat) (hj : j < (cull values p f st).mdbDataList.length)
    (a b : Nat) (hab : a ≤ b) (hbn : b < grid.cellCount)
    (hvis : ∀ i, a ≤ i → i ≤ b → batchVis values p f grid j i = true)
    (hleft : a = 0 ∨ (batchVis values p f grid j (a-1) = false ∧
      cellOff grid (a-1) < cellOff grid a))
    (hright : b + 1 = grid.cellCount ∨ (batchVis values p f grid j (b+1) = false ∧
      cellOff grid (b+1) < cellOff grid (b+2)))
    (hne : cellOff grid a < cellOff grid (b+1)) :
    ∃ bj : MultiDrawBaseData, (cull values p f st).mdbDataList[j]? = some bj ∧
      ∃ (k : Nat) (hk : k < (mdbEntries bj).length),
        ((mdbEntries bj).get ⟨k, hk⟩).base = cellOff grid a ∧
        ((mdbEntries bj).get ⟨k, hk⟩).base + ((mdbEntries bj).get ⟨k, hk⟩).icount
          = cellOff grid (b+1) ∧
        ∀ (k2 : Nat) (hk2 : k2 < (mdbEntries bj).length),
          (∃ y : Int, cellOff grid a ≤ y ∧ y < cellOff grid (b+1) ∧
            inRange ((mdbEntries bj).get ⟨k2, hk2⟩) y) → k2 = k := by
  obtain ⟨bj, checkDc, dc, hbj, hent, -, -⟩ :=
    cull_batch_entries values p f st grid hd hi hg hwf j hj
  refine ⟨bj, hbj, ?_⟩
  rw [hent]
  exact buildEntries_run checkDc dc (cellOff grid) (batchVis values p f grid j)
    grid.cellCount hpart.2.2 a b hab hbn hvis hleft hright hne

/-- Claim C7: a second cull call with the same camera plane, frustum and
unchanged values (hence unchanged LOD table version) reproduces the same
batch list observably — identical valid entries and identical uniforms,
version counters included, so no per-band uniforms are rebuilt by the second
call. -/
theorem C7_cull_idempotent (values : RenderableValues) (p : Plane3D) (f : Frustum3D)
    (st : CullState) (hwf : CullStateWF st) :
    (cull values p f (cull values p f st)).mdbDataList.map batchObs =
      (cull values p f st).mdbDataList.map batchObs := by
  have hwf1 : CullStateWF (cull values p f st) := cull_preserves_wf values p f st hwf
  by_cases hd : values.drawCount = 0
  · rw [cull_early values p f st (Or.inl hd),
      cull_early values p f _ (Or.inl hd)]
  by_cases hi : values.instanceCount = 0
  · rw [cull_early values p f st (Or.inr (Or.inl hi)),
      cull_early values p f _ (Or.inr (Or.inl hi))]
  cases hg : values.instanceGrid with
  | none =>
    rw [cull_early values p f st (Or.inr (Or.inr hg)),
      cull_early values p f _ (Or.inr (Or.inr hg))]
  | some grid =>
    have hB : ∀ (h : values.lodLevels = none ∨ values.lodLevels = some []),
        (cull values p f (cull values p f st)).mdbDataList.map batchObs =
          (cull values p f st).mdbDataList.map batchObs := by
      intro h
      obtain ⟨m2, heq, hent, -, hu, hal, -, -⟩ :=
        cullBranchB_spec values.drawCount (hasLodOf values.uLod) values.uLod.1
          values.uLod.2.1 p f grid st hwf.1
      have he1 : cull values p f st =
          { st with mdbData := m2, mdbDataList := [m2], cullEnabled := true } := by
        rw [cull_eq_branchB values p f st grid hd hi hg h, heq]
      obtain ⟨m2b, heq2, hent2, -, hu2, -, -, -⟩ :=
        cullBranchB_spec values.drawCount (hasLodOf values.uLod) values.uLod.1
          values.uLod.2.1 p f grid
          { st with mdbData := m2, mdbDataList := [m2], cullEnabled := true }
          (by exact hal)
      rw [he1, cull_eq_branchB values p f _ grid hd hi hg h, heq2]
      show [batchObs m2b] = [batchObs m2]
      have hobs : batchObs m2b = batchObs m2 := by
        unfold batchObs
        rw [hent2, hent, hu2, hu]
      rw [hobs]
    cases hll : values.lodLevels with
    | none => exact hB (Or.inl hll)
    | some ll =>
      by_cases hlen : 0 < ll.length
      · have he1 : cull values p f st =
            cullBranchA ll values.lodLevelsRefVersion (hasLodOf values.uLod)
              values.uLod.1 values.uLod.2.1 p f grid st :=
          cull_eq_branchA values p f st grid ll hd hi hg hll hlen
        have he2 : cull values p f (cull values p f st) =
            cullBranchA ll values.lodLevelsRefVersion (hasLodOf values.uLod)
              values.uLod.1 values.uLod.2.1 p f grid (cull values p f st) :=
          cull_eq_branchA values p f _ grid ll hd hi hg hll hlen
        obtain ⟨-, -, hver1, hlist1, hper1⟩ :=
          cullBranchA_spec ll values.lodLevelsRefVersion (hasLodOf values.uLod)
            values.uLod.1 values.uLod.2.1 p f grid st hwf.2
        obtain ⟨-, -, -, hlist2, hper2⟩ :=
          cullBranchA_spec ll values.lodLevelsRefVersion (hasLodOf values.uLod)
            values.uLod.1 values.uLod.2.1 p f grid (cull values p f st) hwf1.2
        have hver : (cull values p f st).lodLevelsVersion
            = values.lodLevelsRefVersion := by
          rw [he1]
          exact hver1
        apply List.ext_getElem?
        intro k
        rw [List.getElem?_map, List.getElem?_map]
        by_cases hk : k < ll.length
        · have hlvl : ∃ lvl, ll[k]? = some lvl := by
            cases h2 : ll[k]? with
            | none =>
              rw [List.getElem?_eq_none_iff] at h2
              omega
            | some lvl => exact ⟨lvl, rfl⟩
          obtain ⟨lvl, hlvl⟩ := hlvl
          obtain ⟨m1k, hm1k, hent1, -, -, hcap1, -⟩ := hper1 k lvl hlvl
          obtain ⟨m2k, hm2k, hent2, -, -, -, hu2⟩ := hper2 k lvl hlvl
          rw [he2, hm2k, he1, hm1k]
          have hget : (cull values p f st).mdbDataList.get? k = some m1k := by
            rw [List.get?_eq_getElem?, he1, hm1k]
          have hobs : batchObs m2k = batchObs m1k := by
            unfold batchObs
            rw [hent2, hent1]
            refine congrArg _ ?_
            rw [hu2]
            unfold branchABatchStart
            dsimp only
            rw [if_neg (by rw [hver]; exact fun hcon => hcon rfl), hget,
              getMdbData_reuse grid.cellCount m1k hcap1]
          simp only [Option.map_some', hobs]
        · rw [he2]
          rw [List.getElem?_eq_none (by rw [hlist2]; omega)]
          rw [he1]
          rw [List.getElem?_eq_none (by rw [hlist1]; omega)]
      · have hll0 : ll = [] := by
          cases ll with
          | nil => rfl
          | cons x xs => exact absurd (by simp) hlen
        subst hll0
        exact hB (Or.inr hll)

/-- A camera plane measuring distance along the x axis. -/
def exPlaneX : Plane3D := ⟨⟨1, 0, 0⟩, 0⟩

/-- Six degenerate planes: every sphere with non-negative radius passes. -/
def exFrustumOpen : Frustum3D :=
  ⟨[⟨⟨0,0,0⟩,0⟩, ⟨⟨0,0,0⟩,0⟩, ⟨⟨0,0,0⟩,0⟩, ⟨⟨0,0,0⟩,0⟩, ⟨⟨0,0,0⟩,0⟩, ⟨⟨0,0,0⟩,0⟩]⟩

/-- A frustum whose first plane rejects spheres far out on the x axis. -/
def exFrustumCut : Frustum3D :=
  ⟨[⟨⟨-1,0,0⟩,50⟩, ⟨⟨0,0,0⟩,0⟩, ⟨⟨0,0,0⟩,0⟩, ⟨⟨0,0,0⟩,0⟩, ⟨⟨0,0,0⟩,0⟩, ⟨⟨0,0,0⟩,0⟩]⟩

/-- Three cells [0,5), [5,5) (empty), [5,9); cells 0 and 2 near the origin,
cell 1 far out. -/
def exGrid3 : InstanceGrid :=
  { cellOffsets := #[0, 5, 5, 9]
    cellSpheres := #[0,0,0,1, 100,0,0,1, 0,0,0,1]
    cellCount := 3 }

/-- Three non-empty cells [0,3), [3,7), [7,10); only the middle cell is near
the origin. -/
def exGrid4 : InstanceGrid :=
  { cellOffsets := #[0, 3, 7, 10]
    cellSpheres := #[100,0,0,1, 0,0,0,1, 100,0,0,1]
    cellCount := 3 }

/-- One cell [0,5) at distance 25 with radius 1. -/
def exGrid1 : InstanceGrid :=
  { cellOffsets := #[0, 5], cellSpheres := #[25,0,0,1], cellCount := 1 }

/-- One cell [0,5) at the origin with radius 1. -/
def exGrid1b : InstanceGrid :=
  { cellOffsets := #[0, 5], cellSpheres := #[0,0,0,1], cellCount := 1 }

/-- One cell [0,5) at distance 9 with radius 1 (touches minDistance 10). -/
def exGrid1c : InstanceGrid :=
  { cellOffsets := #[0, 5], cellSpheres := #[9,0,0,1], cellCount := 1 }

/-- One cell [0,5) at distance 45 with radius 2, for two overlapping bands. -/
def exGrid1d : InstanceGrid :=
  { cellOffsets := #[0, 5], cellSpheres := #[45,0,0,2], cellCount := 1 }

/-- LOD-free values over the three-cell grid with the empty middle cell. -/
def exValuesB : RenderableValues :=
  { drawCount := 7, instanceCount := 9, instanceGrid := some exGrid3
    uLod := (0, 0, 0, 0), lodLevels := none, lodLevelsRefVersion := 0 }

/-- LOD-free values over the grid with three non-empty cells. -/
def exValuesRun : RenderableValues :=
  { drawCount := 7, instanceCount := 10, instanceGrid := some exGrid4
    uLod := (0, 0, 0, 0), lodLevels := none, lodLevelsRefVersion := 0 }

/-- One band [20,30] with overall uLod range [0,10]: the cell at distance 25
meets the band but fails the overall gate. -/
def exValuesC3x : RenderableValues :=
  { drawCount := 7, instanceCount := 5, instanceGrid := some exGrid1
    uLod := (0, 10, 0, 0), lodLevels := some [⟨20, 30, 0, 7, 1⟩]
    lodLevelsRefVersion := 1 }

/-- Two overlapping bands [0,50] and [40,100] with a permissive overall
range; the cell at distance 45 meets both bands. -/
def exValuesC3w : RenderableValues :=
  { drawCount := 7, instanceCount := 5, instanceGrid := some exGrid1d
    uLod := (0, 100, 0, 0)
    lodLevels := some [⟨0, 50, 0, 30, 1⟩, ⟨40, 100, 0, 9, 2⟩]
    lodLevelsRefVersion := 5 }

/-- Empty LOD table but a non-zero overall uLod range [10,20]. -/
def exValuesC6x : RenderableValues :=
  { drawCount := 7, instanceCount := 5, instanceGrid := some exGrid1b
    uLod := (10, 20, 0, 0), lodLevels := none, lodLevelsRefVersion := 0 }

/-- Empty LOD table with zero overall uLod, over the one-cell grid. -/
def exValuesC6w : RenderableValues :=
  { drawCount := 7, instanceCount := 5, instanceGrid := some exGrid1b
    uLod := (0, 0, 0, 0), lodLevels := none, lodLevelsRefVersion := 0 }

/-- Overall range [10,20] with the cell sphere exactly touching minDistance. -/
def exValuesC9 : RenderableValues :=
  { drawCount := 7, instanceCount := 5, instanceGrid := some exGrid1c
    uLod := (10, 20, 0, 0), lodLevels := none, lodLevelsRefVersion := 0 }

/-- Zero drawCount: the culling preconditions fail. -/
def exValuesC5 : RenderableValues :=
  { drawCount := 0, instanceCount := 9, instanceGrid := some exGrid3
    uLod := (0, 0, 0, 0), lodLevels := none, lodLevelsRefVersion := 0 }

/-- Claim C1 counterexample: cells 0 and 2 pass every visibility test, the
separating cell 1 fails the frustum test but has an empty range, so the
maximal visible run consisting of cell 2 alone (range [5,9)) is absorbed into
cell 0's entry: the output holds the single entry (base 0, count 9) and no
entry with baseInstance cellOffsets[2] = 5 exists, contradicting the claim. -/
theorem C1_counterexample :
    frustumPass exFrustumCut exGrid3 0 = true ∧
    frustumPass exFrustumCut exGrid3 1 = false ∧
    frustumPass exFrustumCut exGrid3 2 = true ∧
    overallPass (hasLodOf exValuesB.uLod) exValuesB.uLod.1 exValuesB.uLod.2.1
      exPlaneX exGrid3 2 = true ∧
    cellOff exGrid3 2 = 5 ∧ cellOff exGrid3 3 = 9 ∧
    (cull exValuesB exPlaneX exFrustumCut createCullState).mdbDataList.map mdbEntries
      = [[{ dc := 7, icount := 9, base := 0 }]] ∧
    ¬ ∃ L ∈ (cull exValuesB exPlaneX exFrustumCut
        createCullState).mdbDataList.map mdbEntries, ∃ e ∈ L, e.base = 5 := by
  decide

/-- Claim C3 counterexample: the single cell passes the frustum test, has a
non-empty range and meets band 0's interval [20,30], yet the overall uLod
gate [0,10] rejects it first, so band 0's batch stays empty and no entry
covers the cell's range, contradicting the claim as stated. -/
theorem C3_counterexample :
    frustumPass exFrustumOpen exGrid1 0 = true ∧
    lodSkip 20 30 (cellDist exPlaneX exGrid1 0) ((cellSphere exGrid1 0).radius)
      = false ∧
    cellOff exGrid1 0 < cellOff exGrid1 1 ∧
    exValuesC3x.lodLevels = some [⟨20, 30, 0, 7, 1⟩] ∧
    (cull exValuesC3x exPlaneX exFrustumOpen createCullState).mdbDataList.map
      mdbEntries = [[]] := by
  decide

/-- Claim C6 counterexample: the LOD table is absent and the single cell
passes the frustum test with a non-empty range, yet because the overall uLod
range is the non-zero [10,20] the cell is distance-rejected and the batch is
empty — the cell is not tested only against the frustum, contradicting
"regardless of the values of the overall uLod min/max distances". -/
theorem C6_counterexample :
    exValuesC6x.lodLevels = none ∧
    frustumPass exFrustumOpen exGrid1b 0 = true ∧
    cellOff exGrid1b 0 < cellOff exGrid1b 1 ∧
    (cull exValuesC6x exPlaneX exFrustumOpen createCullState).mdbDataList.map
      mdbEntries = [[]] := by
  decide

theorem C1_run_merge_witness :
    ∃ bj : MultiDrawBaseData,
      (cull exValuesRun exPlaneX exFrustumCut createCullState).mdbDataList[0]?
        = some bj ∧
      ∃ (k : Nat) (hk : k < (mdbEntries bj).length),
        ((mdbEntries bj).get ⟨k, hk⟩).base = cellOff exGrid4 1 ∧
        ((mdbEntries bj).get ⟨k, hk⟩).base + ((mdbEntries bj).get ⟨k, hk⟩).icount
          = cellOff exGrid4 2 ∧
        ∀ (k2 : Nat) (hk2 : k2 < (mdbEntries bj).length),
          (∃ y : Int, cellOff exGrid4 1 ≤ y ∧ y < cellOff exGrid4 2 ∧
            inRange ((mdbEntries bj).get ⟨k2, hk2⟩) y) → k2 = k :=
  C1_run_merge exValuesRun exPlaneX exFrustumCut createCullState exGrid4
    (by decide) (by decide) (by decide) (by decide) (by decide) 0 (by decide)
    1 1 (by decide) (by decide)
    (by
      intro i h1 h2
      have hi1 : i = 1 := by omega
      subst hi1
      decide)
    (Or.inr (by decide)) (Or.inr (by decide)) (by decide)

theorem C2_visibility_soundness_witness :
    ∃ b ∈ (cull exValuesRun exPlaneX exFrustumCut createCullState).mdbDataList,
      ∀ e ∈ mdbEntries b, ∀ x : Int,
        cellOff exGrid4 0 ≤ x → x < cellOff exGrid4 1 → ¬ inRange e x :=
  ⟨(cull exValuesRun exPlaneX exFrustumCut createCullState).mdbDataList.get
      ⟨0, by decide⟩,
    List.get_mem _ 0 (by decide),
    C2_visibility_soundness exValuesRun exPlaneX exFrustumCut createCullState
      exGrid4 (by decide) (by decide) (by decide) (by decide) (by decide) 0
      (by decide) (by decide) _ (List.get_mem _ 0 (by decide))⟩

theorem C3_band_coverage_witness :
    (∃ bj : MultiDrawBaseData,
      (cull exValuesC3w exPlaneX exFrustumOpen createCullState).mdbDataList[0]?
        = some bj ∧
      ∃ (k : Nat) (hk : k < (mdbEntries bj).length),
        ((mdbEntries bj).get ⟨k, hk⟩).base ≤ cellOff exGrid1d 0 ∧
        cellOff exGrid1d 1 ≤
          ((mdbEntries bj).get ⟨k, hk⟩).base + ((mdbEntries bj).get ⟨k, hk⟩).icount ∧
        ∀ (k2 : Nat) (hk2 : k2 < (mdbEntries bj).length),
          (∃ y : Int, cellOff exGrid1d 0 ≤ y ∧ y < cellOff exGrid1d 1 ∧
            inRange ((mdbEntries bj).get ⟨k2, hk2⟩) y) → k2 = k) ∧
    (∃ bj : MultiDrawBaseData,
      (cull exValuesC3w exPlaneX exFrustumOpen createCullState).mdbDataList[1]?
        = some bj ∧
      ∃ (k : Nat) (hk : k < (mdbEntries bj).length),
        ((mdbEntries bj).get ⟨k, hk⟩).base ≤ cellOff exGrid1d 0 ∧
        cellOff exGrid1d 1 ≤
          ((mdbEntries bj).get ⟨k, hk⟩).base + ((mdbEntries bj).get ⟨k, hk⟩).icount ∧
        ∀ (k2 : Nat) (hk2 : k2 < (mdbEntries bj).length),
          (∃ y : Int, cellOff exGrid1d 0 ≤ y ∧ y < cellOff exGrid1d 1 ∧
            inRange ((mdbEntries bj).get ⟨k2, hk2⟩) y) → k2 = k) :=
  ⟨C3_band_coverage exValuesC3w exPlaneX exFrustumOpen createCullState exGrid1d
      [⟨0, 50, 0, 30, 1⟩, ⟨40, 100, 0, 9, 2⟩]
      (by decide) (by decide) (by decide) (by decide) (by decide) (by decide)
      (by decide) 0 ⟨0, 50, 0, 30, 1⟩ (by decide) 0 (by decide) (by decide)
      (by decide) (by decide) (by decide),
    C3_band_coverage exValuesC3w exPlaneX exFrustumOpen createCullState exGrid1d
      [⟨0, 50, 0, 30, 1⟩, ⟨40, 100, 0, 9, 2⟩]
      (by decide) (by decide) (by decide) (by decide) (by decide) (by decide)
      (by decide) 1 ⟨40, 100, 0, 9, 2⟩ (by decide) 0 (by decide) (by decide)
      (by decide) (by decide) (by decide)⟩

theorem C4_batch_entry_invariants_witness :
    ∃ b ∈ (cull exValuesRun exPlaneX exFrustumCut createCullState).mdbDataList,
      List.Pairwise (fun e1 e2 => e1.base + e1.icount ≤ e2.base) (mdbEntries b) ∧
      List.Pairwise (fun e1 e2 => e1.base < e2.base) (mdbEntries b) ∧
      ∀ e ∈ mdbEntries b, 0 < e.icount :=
  ⟨(cull exValuesRun exPlaneX exFrustumCut createCullState).mdbDataList.get
      ⟨0, by decide⟩,
    List.get_mem _ 0 (by decide),
    C4_batch_entry_invariants exValuesRun exPlaneX exFrustumCut createCullState
      exGrid4 (by decide) (by decide) (by decide) (by decide) (by decide)
      _ (List.get_mem _ 0 (by decide))⟩

theorem C5_cull_noop_without_preconditions_witness :
    cull exValuesC5 exPlaneX exFrustumOpen createCullState
      = { createCullState with cullEnabled := false } ∧
    renderMdb (cull exValuesC5 exPlaneX exFrustumOpen createCullState) = none :=
  C5_cull_noop_without_preconditions exValuesC5 exPlaneX exFrustumOpen
    createCullState (Or.inl (by decide))

theorem C6_empty_table_frustum_only_witness :
    ∃ b : MultiDrawBaseData,
      (cull exValuesC6w exPlaneX exFrustumOpen createCullState).mdbDataList = [b] ∧
      ∀ x : Int, (∃ e ∈ mdbEntries b, inRange e x) ↔
        ∃ i, i < exGrid1b.cellCount ∧ frustumPass exFrustumOpen exGrid1b i = true ∧
          cellOff exGrid1b i ≤ x ∧ x < cellOff exGrid1b (i+1) :=
  C6_empty_table_frustum_only exValuesC6w exPlaneX exFrustumOpen createCullState
    exGrid1b (by decide) (by decide) (by decide) (by decide) (by decide)
    (Or.inl (by decide)) (by decide) (by decide)

theorem C7_cull_idempotent_witness :
    (cull exValuesC3w exPlaneX exFrustumOpen
        (cull exValuesC3w exPlaneX exFrustumOpen createCullState)).mdbDataList.map
        batchObs =
      (cull exValuesC3w exPlaneX exFrustumOpen createCullState).mdbDataList.map
        batchObs :=
  C7_cull_idempotent exValuesC3w exPlaneX exFrustumOpen createCullState (by decide)

theorem C8_buffer_reuse_witness :
    (∀ (cc : Nat) (m : MultiDrawBaseData), cc ≤ m.instanceCounts.size →
        getMdbData cc (some m) = m) ∧
      (∀ (cc : Nat) (m : MultiDrawBaseData),
        cc ≤ (getMdbData cc (some m)).instanceCounts.size ∧
          m.instanceCounts.size ≤ (getMdbData cc (some m)).instanceCounts.size) ∧
      createCullState.mdbData.instanceCounts.size ≤
        (cull exValuesRun exPlaneX exFrustumCut createCullState).mdbData.instanceCounts.size ∧
      ∀ b ∈ (cull exValuesRun exPlaneX exFrustumCut createCullState).mdbDataList,
        b.count ≤ exGrid4.cellCount ∧ exGrid4.cellCount ≤ b.instanceCounts.size :=
  C8_buffer_reuse exValuesRun exPlaneX exFrustumCut createCullState exGrid4
    (by decide) (by decide) (by decide) (by decide)

theorem C9_inclusive_boundaries_witness :
    (∀ minD maxD d r : Int,
      ((d + r = minD ∧ d - r ≤ maxD) ∨ (d - r = maxD ∧ minD ≤ d + r)) →
        lodSkip minD maxD d r = false) ∧
    ∃ b : MultiDrawBaseData,
      (cull exValuesC9 exPlaneX exFrustumOpen createCullState).mdbDataList = [b] ∧
      ∀ x : Int, cellOff exGrid1c 0 ≤ x → x < cellOff exGrid1c 1 →
        ∃ e ∈ mdbEntries b, inRange e x :=
  C9_inclusive_boundaries exValuesC9 exPlaneX exFrustumOpen createCullState exGrid1c
    (by decide) (by decide) (by decide) (by decide) (by decide)
    (Or.inl (by decide)) 0 (by decide) (Or.inl (by decide)) (by decide) (by decide)

theorem C10_lod_disabled_single_batch_empty_uniforms_witness :
    ∃ b : MultiDrawBaseData,
      (cull exValuesB exPlaneX exFrustumCut createCullState).mdbDataList = [b] ∧
      b.uniforms = [] :=
  C10_lod_disabled_single_batch_empty_uniforms exValuesB exPlaneX exFrustumCut
    createCullState exGrid3 (by decide) (by decide) (by decide) (Or.inl (by decide))

end Molstar
